import Mathlib

/-!
# nPanel migration engine (`src/agent/migration.go`): shallow embedding

The Go code is embedded as pure Lean functions. Besides the migration engine the file embeds the
cgroup path helper of `src/agent/cgroups.go` and, from `src/backend`, password validation
(`validation.go`), the account lockout tracker (`security.go`) and the role table (`rbac.go`).

* A Go `error` is the text its `Error()` method returns; `none` is the `nil` error.
* Every call with an effect outside the function under study (a collaborator step, a job-status
  write, an audit record, a queued job, a file-system change) is recorded, in program order, in a
  list of `Call`s that the function returns next to its Go result. Reads (database queries,
  `os.Stat`, the token check) are functions of the environment and are not recorded.
* The collaborator functions of `migration.go` whose bodies are placeholders (`return nil`,
  `return true`, an empty body) are fields of `Collaborators`, so that every outcome they may have
  can be quantified over; `sourceStubs` gives the bodies exactly as the source has them.
* `map[string]interface{}` parameters and responses are association lists of `Value`s, written in
  the order of the source text.
* A Go string is a Lean `String`, a sequence of Unicode characters; `len` is its size in bytes.
* `time.Now()` is an explicit argument, in nanoseconds, of the functions that read the clock.
-/

namespace Npanel

/-! ## Data model -/

/-- Go `error`: `none` is `nil`, `some s` an error whose `Error()` text is `s`. -/
abbrev GoError := Option String

/-- Values of type `interface{}` that occur in parameter and response maps. A `float64` (every
JSON number of a request) is represented by the `int64` that Go's conversion `int64(x)` yields,
the only way `migration.go` uses such a number. -/
inductive Value where
  | str (s : String)
  | float64 (asInt64 : Int)
  | int (n : Int)
  | bool (b : Bool)
  | strs (xs : List String)
  | obj (fields : List (String × Value))

mutual
/-- Equality of `Value`s is decidable. -/
def Value.decEq : (a b : Value) → Decidable (a = b)
  | .str s, .str t => if h : s = t then isTrue (by rw [h])
    else isFalse (by intro e; cases e; exact h rfl)
  | .float64 s, .float64 t => if h : s = t then isTrue (by rw [h])
    else isFalse (by intro e; cases e; exact h rfl)
  | .int s, .int t => if h : s = t then isTrue (by rw [h])
    else isFalse (by intro e; cases e; exact h rfl)
  | .bool s, .bool t => if h : s = t then isTrue (by rw [h])
    else isFalse (by intro e; cases e; exact h rfl)
  | .strs s, .strs t => if h : s = t then isTrue (by rw [h])
    else isFalse (by intro e; cases e; exact h rfl)
  | .obj s, .obj t =>
    match Value.decEqFields s t with
    | isTrue h => isTrue (by rw [h])
    | isFalse h => isFalse (by intro e; cases e; exact h rfl)
  | .str _, .float64 _ | .str _, .int _ | .str _, .bool _ | .str _, .strs _ | .str _, .obj _
  | .float64 _, .str _ | .float64 _, .int _ | .float64 _, .bool _ | .float64 _, .strs _
  | .float64 _, .obj _
  | .int _, .str _ | .int _, .float64 _ | .int _, .bool _ | .int _, .strs _ | .int _, .obj _
  | .bool _, .str _ | .bool _, .float64 _ | .bool _, .int _ | .bool _, .strs _ | .bool _, .obj _
  | .strs _, .str _ | .strs _, .float64 _ | .strs _, .int _ | .strs _, .bool _ | .strs _, .obj _
  | .obj _, .str _ | .obj _, .float64 _ | .obj _, .int _ | .obj _, .bool _ | .obj _, .strs _ =>
    isFalse (by intro e; cases e)
/-- Equality of field lists is decidable. -/
def Value.decEqFields : (a b : List (String × Value)) → Decidable (a = b)
  | [], [] => isTrue rfl
  | [], _ :: _ => isFalse (by intro e; cases e)
  | _ :: _, [] => isFalse (by intro e; cases e)
  | (k, v) :: xs, (l, w) :: ys =>
    if hk : k = l then
      match Value.decEq v w with
      | isTrue hv =>
        match Value.decEqFields xs ys with
        | isTrue hs => isTrue (by rw [hk, hv, hs])
        | isFalse hs => isFalse (by intro e; cases e; exact hs rfl)
      | isFalse hv => isFalse (by intro e; cases e; exact hv rfl)
    else isFalse (by intro e; cases e; exact hk rfl)
end

instance : DecidableEq Value := Value.decEq

/-- Go `map[string]interface{}`. -/
abbrev GoMap := List (String × Value)

/-- The part of `ActionContext` that `migration.go` reads. -/
structure ActionContext where
  User : String
  deriving DecidableEq, Repr

/-- Go `MigrationDomain`. -/
structure MigrationDomain where
  DomainName : String
  IsAddon : Bool
  WebRoot : String
  DocumentRoot : String
  PublicHTML : String
  LogDir : String
  Size : Int
  SSL : Bool
  deriving DecidableEq, Repr

/-- Go `MigrationEmail`. -/
structure MigrationEmail where
  Email : String
  Domain : String
  HasMailbox : Bool
  MaildirSize : Int
  Forwarding : List String
  MailingLists : List String
  deriving DecidableEq, Repr

/-- Go `MigrationDatabase`. -/
structure MigrationDatabase where
  DBName : String
  DBType : String
  DBUser : String
  DBSize : Int
  TableCount : Int
  Owner : String
  deriving DecidableEq, Repr

/-- Go `MigrationDNSZone`. -/
structure MigrationDNSZone where
  ZoneName : String
  RecordCount : Int
  SerialNumber : Int
  deriving DecidableEq, Repr

/-- Go `MigrationSSL`; `ExpiryDate` is a time stamp. -/
structure MigrationSSL where
  Domain : String
  Certificate : String
  PrivateKey : String
  ExpiryDate : Int
  deriving DecidableEq, Repr

/-- Go `MigrationPlan`; `BackupDate` is a time stamp. -/
structure MigrationPlan where
  TargetUser : String
  TargetUID : Int
  TargetGID : Int
  BackupFormat : String
  BackupVersion : String
  BackupDate : Int
  TotalSize : Int
  Domains : List MigrationDomain
  EmailAccounts : List MigrationEmail
  Databases : List MigrationDatabase
  DNSZones : List MigrationDNSZone
  SSLCertificates : List MigrationSSL
  Warnings : List String
  Conflicts : List String
  SkipReasons : List String
  deriving DecidableEq, Repr

/-- Go `MigrationJob`, one row of table `migration_jobs`. The column `plan_json` is kept as the
plan it serialises (`Plan`); the time stamps are numbers. -/
structure MigrationJob where
  ID : Int
  Status : String
  Progress : Int
  CurrentStep : String
  SourceType : String
  SourcePath : String
  TargetUser : String
  DryRunMode : Bool
  CreatedAt : Int
  UpdatedAt : Int
  ErrorMsg : String
  Plan : MigrationPlan
  LogPath : String
  deriving DecidableEq, Repr

/-- The database handle `ms.db`, as far as `migration.go` queries it.
`migration_jobs id` is the row `SELECT ... FROM migration_jobs WHERE id = ?` finds, `none` when
`Scan` returns an error. `scanUserId u` is the error returned by
`QueryRow("SELECT id FROM users WHERE username = ?", u).Scan(nil)`; what `database/sql` returns
there is `sql.scanNil`, defined with the library functions below. -/
structure DB where
  migration_jobs : Int → Option MigrationJob
  scanUserId : String → GoError

/-- Go `MigrationService`; the function field `auditLog` is recorded as a `Call`. -/
structure MigrationService where
  db : DB
  tmpDir : String
  homebaseDir : String
  backupDir : String
  maxConcurrentJobs : Int

/-- Calls that leave the function under study, with their arguments. -/
inductive Call where
  | createNPanelUser (jobID : Int)
  | createUserDirectories (jobID : Int)
  | restoreHomeDirectory (jobID : Int)
  | restoreDatabases (jobID : Int)
  | restoreEmailAccounts (jobID : Int)
  | restoreDNSZones (jobID : Int)
  | restoreSSLCertificates (jobID : Int)
  | validateMigrationCompletion (jobID : Int)
  | updateJobStatus (jobID : Int) (status : String) (progress : Int) (errorMsg : String)
  | auditLog (action resource user : String) (result : Bool) (details : String)
  | rollbackMigrationForUser (targetUser : String)
  | queueAsyncApplyJob (jobID : Int) (adminUser : String)
  | queueAnalysisJob (backupPath targetUser adminUser : String)
  | parseCPanelUserdata (path : String)
  | parseCPanelDomains (path : String)
  | parseCPanelEmail (path : String)
  | parseCPanelDatabases (path : String)
  | parseCPanelDNS (path : String)
  | parseCPanelSSL (path : String)
  | osMkdirAll (path : String)
  | osCreate (path : String)
  | osRemoveAll (path : String)
  deriving DecidableEq, Repr

/-- The functions of `migration.go` whose bodies are placeholders, with the signatures the source
gives them. A sub-parser receives the plan by pointer, so it returns the plan it leaves behind
together with its error. -/
structure Collaborators where
  createNPanelUser : Int → GoError
  createUserDirectories : Int → GoError
  restoreHomeDirectory : Int → GoError
  restoreDatabases : Int → GoError
  restoreEmailAccounts : Int → GoError
  restoreDNSZones : Int → GoError
  restoreSSLCertificates : Int → GoError
  validateMigrationCompletion : Int → GoError
  rollbackMigrationForUser : String → GoError
  verifyMigrationApprovalToken : String → Int → Bool
  queueAsyncApplyJob : Int → String → Int
  queueAnalysisJob : String → String → String → Except String Int
  parseCPanelUserdata : String → MigrationPlan → GoError × MigrationPlan
  parseCPanelDomains : String → MigrationPlan → GoError × MigrationPlan
  parseCPanelEmail : String → MigrationPlan → GoError × MigrationPlan
  parseCPanelDatabases : String → MigrationPlan → GoError × MigrationPlan
  parseCPanelDNS : String → MigrationPlan → GoError × MigrationPlan
  parseCPanelSSL : String → MigrationPlan → GoError × MigrationPlan
  getAvailableDiskSpace : String → Except String Int
  isServiceRunning : String → Bool

/-- The value of an `int64` expression whose mathematical value is `x` (two's complement
wrap-around). -/
def wrapInt64 (x : Int) : Int :=
  (x + 2 ^ 63) % 2 ^ 64 - 2 ^ 63

/-- The placeholder bodies exactly as `migration.go` has them. -/
def sourceStubs : Collaborators where
  createNPanelUser := fun _ => none
  createUserDirectories := fun _ => none
  restoreHomeDirectory := fun _ => none
  restoreDatabases := fun _ => none
  restoreEmailAccounts := fun _ => none
  restoreDNSZones := fun _ => none
  restoreSSLCertificates := fun _ => none
  validateMigrationCompletion := fun _ => none
  rollbackMigrationForUser := fun _ => none
  verifyMigrationApprovalToken := fun _ _ => true
  queueAsyncApplyJob := fun jobID _ => wrapInt64 (jobID + 1000)
  queueAnalysisJob := fun _ _ _ => .ok 1
  parseCPanelUserdata := fun _ plan => (none, plan)
  parseCPanelDomains := fun _ plan => (none, plan)
  parseCPanelEmail := fun _ plan => (none, plan)
  parseCPanelDatabases := fun _ plan => (none, plan)
  parseCPanelDNS := fun _ plan => (none, plan)
  parseCPanelSSL := fun _ plan => (none, plan)
  getAvailableDiskSpace := fun _ => .ok (1000 * 1024 * 1024 * 1024)
  isServiceRunning := fun _ => true

/-- Go `errorResponse` (`src/agent/email.go`). -/
def errorResponse (msg : String) : GoMap :=
  [("success", .bool false), ("error", .str msg)]

/-! ## Apply orchestrator -/

/-- Go `handleMigrationError`: `fmt.Sprintf("%s: %v", step, err)` is written to the job with
status `failed` and progress 0, then to the audit log; the error is handed back. -/
def handleMigrationError (jobID : Int) (step : String) (err : String) (adminUser : String) :
    GoError × List Call :=
  let errorMsg := step ++ ": " ++ err
  (some err,
    [Call.updateJobStatus jobID "failed" 0 errorMsg,
     Call.auditLog "migration_error" ("job_" ++ toString jobID) adminUser false errorMsg])

/-- Prefix the calls made so far to the outcome of the rest of the function. -/
def after (done : List Call) (rest : GoError × List Call) : GoError × List Call :=
  (rest.1, done ++ rest.2)

/-- Go `applyMigrationAsync`. `seconds` is `int(time.Since(startTime).Seconds())`, read from the
clock when the last step has returned. -/
def applyMigrationAsync (c : Collaborators) (jobID : Int) (adminUser : String) (seconds : Int) :
    GoError × List Call :=
  -- STEP 1: CREATE NPANEL USER
  after [Call.createNPanelUser jobID] <|
  match c.createNPanelUser jobID with
  | some err => handleMigrationError jobID "user creation failed" err adminUser
  | none =>
  -- STEP 2: CREATE DIRECTORIES
  after [Call.createUserDirectories jobID] <|
  match c.createUserDirectories jobID with
  | some err => handleMigrationError jobID "directory creation failed" err adminUser
  | none =>
  -- STEP 3: RESTORE HOME DIRECTORY
  after [Call.restoreHomeDirectory jobID] <|
  match c.restoreHomeDirectory jobID with
  | some err => handleMigrationError jobID "home directory restore failed" err adminUser
  | none =>
  -- STEP 4: RESTORE DATABASES
  after [Call.restoreDatabases jobID] <|
  match c.restoreDatabases jobID with
  | some err => handleMigrationError jobID "database restore failed" err adminUser
  | none =>
  -- STEP 5: RESTORE EMAIL
  after [Call.restoreEmailAccounts jobID] <|
  match c.restoreEmailAccounts jobID with
  | some err => handleMigrationError jobID "email restore failed" err adminUser
  | none =>
  -- STEP 6: RESTORE DNS
  after [Call.restoreDNSZones jobID] <|
  match c.restoreDNSZones jobID with
  | some err => handleMigrationError jobID "DNS restore failed" err adminUser
  | none =>
  -- STEP 7: RESTORE SSL CERTIFICATES
  after [Call.restoreSSLCertificates jobID] <|
  match c.restoreSSLCertificates jobID with
  | some err => handleMigrationError jobID "SSL restore failed" err adminUser
  | none =>
  -- STEP 8: POST-MIGRATION VALIDATION
  after [Call.validateMigrationCompletion jobID] <|
  match c.validateMigrationCompletion jobID with
  | some err => handleMigrationError jobID "validation failed" err adminUser
  | none =>
  -- Update job as complete
  (none,
    [Call.updateJobStatus jobID "complete" 100 "",
     Call.auditLog "migration_apply_complete" ("job_" ++ toString jobID) adminUser true
       ("Migration completed in " ++ toString seconds ++ " seconds")])

/-- The eight steps of `applyMigrationAsync`, in the order of the source text. -/
inductive ApplyStep where
  | createNPanelUser
  | createUserDirectories
  | restoreHomeDirectory
  | restoreDatabases
  | restoreEmailAccounts
  | restoreDNSZones
  | restoreSSLCertificates
  | validateMigrationCompletion
  deriving DecidableEq, Repr

namespace ApplyStep

/-- Steps 1 to 8. -/
def order : List ApplyStep :=
  [createNPanelUser, createUserDirectories, restoreHomeDirectory, restoreDatabases,
   restoreEmailAccounts, restoreDNSZones, restoreSSLCertificates, validateMigrationCompletion]

/-- The collaborator a step calls. -/
def run (c : Collaborators) : ApplyStep → Int → GoError
  | createNPanelUser => c.createNPanelUser
  | createUserDirectories => c.createUserDirectories
  | restoreHomeDirectory => c.restoreHomeDirectory
  | restoreDatabases => c.restoreDatabases
  | restoreEmailAccounts => c.restoreEmailAccounts
  | restoreDNSZones => c.restoreDNSZones
  | restoreSSLCertificates => c.restoreSSLCertificates
  | validateMigrationCompletion => c.validateMigrationCompletion

/-- The record of a step's invocation. -/
def call : ApplyStep → Int → Call
  | createNPanelUser => Call.createNPanelUser
  | createUserDirectories => Call.createUserDirectories
  | restoreHomeDirectory => Call.restoreHomeDirectory
  | restoreDatabases => Call.restoreDatabases
  | restoreEmailAccounts => Call.restoreEmailAccounts
  | restoreDNSZones => Call.restoreDNSZones
  | restoreSSLCertificates => Call.restoreSSLCertificates
  | validateMigrationCompletion => Call.validateMigrationCompletion

/-- The name under which `applyMigrationAsync` reports a step's failure. -/
def failureName : ApplyStep → String
  | createNPanelUser => "user creation failed"
  | createUserDirectories => "directory creation failed"
  | restoreHomeDirectory => "home directory restore failed"
  | restoreDatabases => "database restore failed"
  | restoreEmailAccounts => "email restore failed"
  | restoreDNSZones => "DNS restore failed"
  | restoreSSLCertificates => "SSL restore failed"
  | validateMigrationCompletion => "validation failed"

/-- Step `k + 1` of the run, for `k` from 0 to 7. -/
def nth (k : Fin 8) : ApplyStep :=
  order.getD k.val validateMigrationCompletion

end ApplyStep

/-- A call writes status `status` to some job. -/
def Call.writesStatus (status : String) (x : Call) : Bool :=
  match x with
  | .updateJobStatus _ s _ _ => s == status
  | _ => false

/-! ## Go library functions used by `migration.go` -/

namespace strings

/-- Go `strings.HasPrefix`. -/
def HasPrefix (s pre : String) : Bool :=
  pre.data.isPrefixOf s.data

/-- Go `strings.HasSuffix`. -/
def HasSuffix (s suffix : String) : Bool :=
  suffix.data.isSuffixOf s.data

/-- Go `strings.Contains`. -/
def Contains (s substr : String) : Bool :=
  s.data.tails.any (fun t => substr.data.isPrefixOf t)

end strings

namespace filepath

/-- The elements of a path: the pieces between its separators `/` (empty where two separators
meet, or where the path starts or ends with one). -/
def elements : List Char → List (List Char)
  | [] => [[]]
  | c :: cs =>
    if c = '/' then [] :: elements cs
    else
      match elements cs with
      | [] => [[c]]
      | e :: es => (c :: e) :: es

/-- The elements written out with one separator between neighbours. -/
def joined : List (List Char) → List Char
  | [] => []
  | [e] => e
  | e :: es => e ++ '/' :: joined es

/-- One turn of the loop of Go `filepath.Clean` (Unix), which reads the path element by element
and keeps the elements written so far in `out`: an empty element and `.` are dropped; `..` removes
the last element written unless there is none or it is `..` itself, in which case `..` is
written when the path is not rooted and dropped when it is; any other element is written. -/
def cleanStep (rooted : Bool) (out : List (List Char)) (e : List Char) : List (List Char) :=
  if e = [] then out
  else if e = ['.'] then out
  else if e = ['.', '.'] then
    match out.getLast? with
    | some last =>
      if last ≠ ['.', '.'] then out.dropLast
      else if rooted then out else out ++ [e]
    | none => if rooted then out else out ++ [e]
  else out ++ [e]

/-- The elements Go `filepath.Clean` keeps of a path. -/
def cleanElements (path : List Char) : List (List Char) :=
  (elements path).foldl (cleanStep (path.head? = some '/')) []

/-- The path that Go `filepath.Clean` returns for the elements it kept: they follow the root
separator when the path is rooted; a path that is not rooted and keeps nothing becomes `.`. -/
def written (rooted : Bool) (kept : List (List Char)) : List Char :=
  if rooted then '/' :: joined kept
  else if kept = [] then ['.']
  else joined kept

/-- Go `filepath.Clean` (Unix) on the characters of a path. -/
def cleanChars (path : List Char) : List Char :=
  written (path.head? = some '/') (cleanElements path)

/-- Go `filepath.Clean`. -/
def Clean (path : String) : String :=
  ⟨cleanChars path.data⟩

/-- Go `filepath.IsAbs` (Unix). -/
def IsAbs (path : String) : Bool :=
  strings.HasPrefix path "/"

/-- Go `filepath.Join` of two elements: the first non-empty element onwards, joined by the
separator and cleaned; the empty string when both are empty. -/
def Join (a b : String) : String :=
  if a ≠ "" then Clean (a ++ "/" ++ b)
  else if b ≠ "" then Clean b
  else ""

/-- Go `filepath.Dir` (Unix): the path up to and including its last separator, cleaned. -/
def Dir (path : String) : String :=
  Clean ⟨(path.data.reverse.dropWhile (fun c => c ≠ '/')).reverse⟩

/-- Go `filepath.Base` (Unix): the last element of the path, after trailing separators are
stripped. -/
def Base (path : String) : String :=
  if path = "" then "."
  else
    let stripped := (path.data.reverse.dropWhile (fun c => c = '/')).reverse
    let last := (stripped.reverse.takeWhile (fun c => c ≠ '/')).reverse
    if last = [] then "/" else ⟨last⟩

/-- An element that `filepath.Clean` writes and never removes by itself: not empty, not `.`, not
`..`, and free of separators. -/
def Normal (e : List Char) : Prop :=
  e ≠ [] ∧ e ≠ ['.'] ∧ e ≠ ['.', '.'] ∧ '/' ∉ e

/-- An element that `filepath.Clean` may keep: not empty, not `.`, free of separators. -/
def Kept (e : List Char) : Prop :=
  e ≠ [] ∧ e ≠ ['.'] ∧ '/' ∉ e

/-- The shape of what `filepath.Clean` has written at any point: `k` elements `..` followed by
normal elements, with `k = 0` for a rooted path. -/
def Shape (rooted : Bool) (out : List (List Char)) : Prop :=
  ∃ (k : Nat) (normals : List (List Char)),
    out = List.replicate k ['.', '.'] ++ normals ∧ (rooted = true → k = 0) ∧
      ∀ e ∈ normals, Normal e

end filepath

namespace sql

/-- Go `database/sql`: the error of `QueryRow(...).Scan(nil)`, a scan of one column into the
destination `nil`. `row` is the name of the column of the row the query found, `none` when it
found no row. Without a row `Scan` returns `ErrNoRows`. With a row, the destination is converted
to: `nil` is no pointer, so the conversion fails with "destination not a pointer" and `Scan`
returns that error with the column index and the quoted column name in front. The error is never
`nil`. -/
def scanNil (row : Option String) : GoError :=
  match row with
  | none => some "sql: no rows in result set"
  | some column =>
    some ("sql: Scan error on column index 0, name \x22" ++ column ++
      "\x22: destination not a pointer")

end sql

/-! ## Parameters and job records -/

/-- Go `v, ok := params[key].(float64)`: `none` when the key is absent or holds another type. -/
def getFloat64 (params : GoMap) (key : String) : Option Int :=
  match params.lookup key with
  | some (.float64 x) => some x
  | _ => none

/-- Go `v, ok := params[key].(string)`: `none` when the key is absent or holds another type. -/
def getString (params : GoMap) (key : String) : Option String :=
  match params.lookup key with
  | some (.str x) => some x
  | _ => none

/-- Modelled from the spec: the body of `updateJobStatus` is missing from `migration.go` (it is
the comment "Update job status in database"). Following the spec's persisted job record, a call
`updateJobStatus(jobID, status, ...)` sets the stored status of job `jobID`; `statusAfter` is the
status of job `jobID` once the recorded calls have been made, starting from `stored`. -/
def statusAfter (jobID : Int) (stored : String) (calls : List Call) : String :=
  calls.foldl
    (fun st x =>
      match x with
      | .updateJobStatus j status _ _ => if j = jobID then status else st
      | _ => st)
    stored

/-- A call writes to a job record. -/
def Call.writesJob (x : Call) : Bool :=
  match x with
  | .updateJobStatus _ _ _ _ => true
  | _ => false

/-- A call queues an apply job. -/
def Call.queuesApply (x : Call) : Bool :=
  match x with
  | .queueAsyncApplyJob _ _ => true
  | _ => false

/-! ## Apply request -/

/-- Go `ApplyMigration`. -/
def ApplyMigration (c : Collaborators) (_ms : MigrationService) (ctx : ActionContext)
    (params : GoMap) : GoMap × List Call :=
  match getFloat64 params "job_id" with
  | none => (errorResponse "job_id parameter required", [])
  | some jobID =>
  match getString params "approval_token" with
  | none => (errorResponse "approval_token parameter required", [])
  | some approvalToken =>
  -- VERIFY APPROVAL TOKEN
  if !c.verifyMigrationApprovalToken approvalToken jobID then
    (errorResponse "invalid approval token",
      [Call.auditLog "migration_apply" ("job_" ++ toString jobID) ctx.User false
        "Invalid approval token"])
  else
  -- QUEUE ASYNC JOB
  let applyJobID := c.queueAsyncApplyJob jobID ctx.User
  ([("success", .bool true),
    ("apply_job_id", .int applyJobID),
    ("status", .str "applying"),
    ("message", .str "Migration in progress"),
    ("check_progress", .str ("/api/migration/job/" ++ toString applyJobID ++ "/status")),
    ("cancel_endpoint", .str ("/api/migration/job/" ++ toString applyJobID ++ "/cancel"))],
   [Call.queueAsyncApplyJob jobID ctx.User,
    Call.auditLog "migration_apply" ("job_" ++ toString jobID) ctx.User true
      ("Migration apply queued: " ++ toString applyJobID)])

/-! ## Rollback -/

/-- Go `RollbackMigration`. -/
def RollbackMigration (c : Collaborators) (ms : MigrationService) (ctx : ActionContext)
    (params : GoMap) : GoMap × List Call :=
  match getFloat64 params "job_id" with
  | none => (errorResponse "job_id parameter required", [])
  | some jobID =>
  -- Retrieve job
  match ms.db.migration_jobs jobID with
  | none => (errorResponse "job not found", [])
  | some job =>
  let status := job.Status
  let targetUser := job.TargetUser
  -- Can only rollback complete or failed jobs
  if status ≠ "complete" ∧ status ≠ "failed" then
    (errorResponse ("cannot rollback job in " ++ status ++ " status"), [])
  else
  -- Attempt rollback
  match c.rollbackMigrationForUser targetUser with
  | some err =>
    (errorResponse ("rollback failed: " ++ err),
      [Call.rollbackMigrationForUser targetUser,
       Call.auditLog "migration_rollback" targetUser ctx.User false ("Rollback failed: " ++ err)])
  | none =>
    ([("success", .bool true),
      ("target_user", .str targetUser),
      ("message", .str "Migration rolled back successfully")],
     [Call.rollbackMigrationForUser targetUser,
      Call.updateJobStatus jobID "rolled_back" 0 "",
      Call.auditLog "migration_rollback" targetUser ctx.User true
        ("Migration rolled back for user: " ++ targetUser)])

/-! ## Files and archives -/

namespace tar

/-- Go `tar.TypeReg`. -/
def TypeReg : Char := '0'

/-- Go `tar.TypeDir`. -/
def TypeDir : Char := '5'

/-- The fields of Go `tar.Header` that `migration.go` reads. -/
structure Header where
  Name : String
  Typeflag : Char
  deriving DecidableEq, Repr

end tar

/-- Go `os.FileInfo`, as far as it is read. -/
structure FileInfo where
  IsDir : Bool
  Size : Int
  deriving DecidableEq, Repr

/-- What reading an opened file yields. `read2` is the outcome of `file.Read` into a buffer of two
bytes (the bytes read, or an error such as `io.EOF`); `gzipErr` is the error of `gzip.NewReader`;
`entries` are the headers `tr.Next()` returns before it stops, and `tarErr` is the error it stops
with, `none` standing for `io.EOF`. -/
structure File where
  read2 : Except String (List Nat)
  gzipErr : GoError
  entries : List tar.Header
  tarErr : GoError

/-- The file system as `migration.go` reads it: `os.Stat` and `os.Open`. -/
structure OS where
  Stat : String → Except String FileInfo
  Open : String → Except String File

/-- Go `detectBackupFormat`. -/
def detectBackupFormat (backupPath : String) : String :=
  let filename := filepath.Base backupPath
  if strings.HasPrefix filename "cpmove-" && strings.HasSuffix filename ".tar.gz" then
    "cpmove-tar.gz"
  else if strings.HasPrefix filename "cpmove-" && strings.HasSuffix filename ".tar" then
    "cpmove-tar"
  else if strings.HasPrefix filename "cpbackup-" then
    "cpbackup"
  else
    ""

/-- The path-traversal guard of the loop of `extractBackupArchive`: `none` when the entry is
skipped (`continue`), else the `targetPath` of the entry. -/
def entryTarget (extractDir name : String) : Option String :=
  -- Prevent path traversal
  let cleanPath := filepath.Clean name
  if strings.HasPrefix cleanPath ".." then none
  else some (filepath.Join extractDir cleanPath)

/-- One turn of the loop of `extractBackupArchive` for a header that `tr.Next()` returned. The
contents that `io.Copy` writes go to the file `os.Create` made. -/
def extractEntry (extractDir : String) (header : tar.Header) : List Call :=
  match entryTarget extractDir header.Name with
  | none => []
  | some targetPath =>
    if header.Typeflag = tar.TypeDir then
      [Call.osMkdirAll targetPath]
    else if header.Typeflag = tar.TypeReg then
      [Call.osMkdirAll (filepath.Dir targetPath), Call.osCreate targetPath]
    else
      []

/-- Go `extractBackupArchive`. -/
def extractBackupArchive (os : OS) (backupPath extractDir : String) : GoError × List Call :=
  match os.Open backupPath with
  | .error err => (some err, [])
  | .ok file =>
    match (if strings.HasSuffix backupPath ".gz" then file.gzipErr else none) with
    | some err => (some err, [])
    | none => (file.tarErr, file.entries.flatMap (extractEntry extractDir))

/-- The names a path passes through: its elements other than the empty one and `.`, which stand
for no step. -/
def pathNames (path : String) : List (List Char) :=
  (filepath.elements path.data).filter (fun e => e ≠ [] ∧ e ≠ ['.'])

/-- A path `target` lies inside the directory `dir`: both are absolute or both are relative,
`target` passes through all the names of the cleaned `dir`, in order, and through no name `..`
after them. -/
def liesWithin (dir target : String) : Bool :=
  (filepath.IsAbs target == filepath.IsAbs dir) &&
    (pathNames (filepath.Clean dir)).isPrefixOf (pathNames target) &&
    !((pathNames target).drop (pathNames (filepath.Clean dir)).length).contains ['.', '.']

/-! ## Analysis -/

/-- The plan after one sub-parser has run: its error, if any, is appended to the warnings as
`fmt.Sprintf("<concern> parsing: %v", err)`. -/
def warnParsing (concern : String) (r : GoError × MigrationPlan) : MigrationPlan :=
  match r.1 with
  | some err => { r.2 with Warnings := r.2.Warnings ++ [concern ++ " parsing: " ++ err] }
  | none => r.2

/-- Go `analyzeBackupAsync`. `unixNano` and `backupDate` are the two readings of `time.Now()`.
The deferred `os.RemoveAll(extractDir)` is the last call on every path. -/
def analyzeBackupAsync (c : Collaborators) (os : OS) (ms : MigrationService)
    (backupPath targetUser : String) (unixNano backupDate : Int) :
    Except String MigrationPlan × List Call :=
  let extractDir := filepath.Join ms.tmpDir ("analysis-" ++ toString unixNano)
  -- EXTRACT BACKUP
  let extraction := extractBackupArchive os backupPath extractDir
  match extraction.1 with
  | some err =>
    (.error ("extraction failed: " ++ err),
      [Call.osMkdirAll extractDir] ++ extraction.2 ++ [Call.osRemoveAll extractDir])
  | none =>
    let plan : MigrationPlan :=
      { TargetUser := targetUser
        TargetUID := 0
        TargetGID := 0
        BackupFormat := detectBackupFormat backupPath
        BackupVersion := ""
        BackupDate := backupDate
        TotalSize := 0
        Domains := []
        EmailAccounts := []
        Databases := []
        DNSZones := []
        SSLCertificates := []
        Warnings := []
        Conflicts := []
        SkipReasons := [] }
    -- PARSE CPANEL METADATA
    let plan := warnParsing "userdata"
      (c.parseCPanelUserdata (filepath.Join extractDir "userdata") plan)
    let plan := warnParsing "domain" (c.parseCPanelDomains extractDir plan)
    let plan := warnParsing "email" (c.parseCPanelEmail extractDir plan)
    let plan := warnParsing "database" (c.parseCPanelDatabases extractDir plan)
    let plan := warnParsing "DNS" (c.parseCPanelDNS extractDir plan)
    let plan := warnParsing "SSL" (c.parseCPanelSSL extractDir plan)
    (.ok plan,
      [Call.osMkdirAll extractDir] ++ extraction.2 ++
        [Call.parseCPanelUserdata (filepath.Join extractDir "userdata"),
         Call.parseCPanelDomains extractDir, Call.parseCPanelEmail extractDir,
         Call.parseCPanelDatabases extractDir, Call.parseCPanelDNS extractDir,
         Call.parseCPanelSSL extractDir] ++
        [Call.osRemoveAll extractDir])

/-- The warnings that the outcomes of the sub-parsers call for: one per error, in the order
given. -/
def parseWarnings (outcomes : List (String × GoError)) : List String :=
  outcomes.filterMap (fun o => o.2.map (fun detail => o.1 ++ " parsing: " ++ detail))

/-- A sub-parser that returns the error `e` (`none` for success) whatever it is given, and leaves
the warnings of the plan as they are. -/
def ParserYields (parse : String → MigrationPlan → GoError × MigrationPlan) (e : GoError) :
    Prop :=
  ∀ path plan, (parse path plan).1 = e ∧ (parse path plan).2.Warnings = plan.Warnings

/-! ## Pre-flight validation -/

/-- Go `regexp.MustCompile("^[a-z0-9_-]{1,32}$").MatchString`: between 1 and 32 characters, each
a lower-case letter, a digit, `_` or `-`. -/
def matchesUsername (s : String) : Bool :=
  decide (1 ≤ s.data.length) && decide (s.data.length ≤ 32) &&
    s.data.all (fun ch =>
      (decide ('a' ≤ ch) && decide (ch ≤ 'z')) ||
        (decide ('0' ≤ ch) && decide (ch ≤ '9')) || ch == '_' || ch == '-')

/-- Go `ValidateBackup`. The sizes are `int64` values; `fileSize * 2` cannot overflow, because
`fileSize` is at most 500 GiB where it is computed. -/
def ValidateBackup (c : Collaborators) (os : OS) (ms : MigrationService) (ctx : ActionContext)
    (params : GoMap) : GoMap × List Call :=
  match getString params "backup_path" with
  | none => (errorResponse "backup_path parameter required", [])
  | some backupPath =>
  if backupPath = "" then (errorResponse "backup_path parameter required", []) else
  match getString params "target_user" with
  | none => (errorResponse "target_user parameter required", [])
  | some targetUser =>
  if targetUser = "" then (errorResponse "target_user parameter required", []) else
  -- INPUT VALIDATION: prevent path traversal
  if strings.Contains backupPath ".." || !filepath.IsAbs backupPath then
    (errorResponse "invalid backup path",
      [Call.auditLog "migration_validate" targetUser ctx.User false
        "Path traversal attempt in backup_path"])
  else
  -- Username validation (no special chars)
  if !matchesUsername targetUser then (errorResponse "invalid target username", []) else
  -- CHECK FILE EXISTS
  match os.Stat backupPath with
  | .error _ =>
    (errorResponse "backup file not found",
      [Call.auditLog "migration_validate" targetUser ctx.User false "Backup file not found"])
  | .ok info =>
  if info.IsDir then (errorResponse "backup_path must be a file, not directory", []) else
  -- CHECK FILE SIZE
  let fileSize := info.Size
  let maxSize : Int := 500 * 1024 * 1024 * 1024
  if fileSize > maxSize then
    (errorResponse "backup file exceeds maximum size (500GB)",
      [Call.auditLog "migration_validate" targetUser ctx.User false "Backup file too large"])
  else
  -- DETECT BACKUP FORMAT
  let backupFormat := detectBackupFormat backupPath
  if backupFormat = "" then
    (errorResponse "unknown backup format (supported: cpmove-*.tar.gz, cpmove-*.tar)",
      [Call.auditLog "migration_validate" targetUser ctx.User false "Unknown backup format"])
  else
  -- VALIDATE BACKUP INTEGRITY
  match os.Open backupPath with
  | .error _ => (errorResponse "cannot open backup file for reading", [])
  | .ok file =>
  match file.read2 with
  | .error _ => (errorResponse "cannot read backup file header", [])
  | .ok header =>
  if strings.HasSuffix backupPath ".gz" &&
      (header.getD 0 0 ≠ 0x1f || header.getD 1 0 ≠ 0x8b) then
    (errorResponse "invalid gzip file (corrupt backup)",
      [Call.auditLog "migration_validate" targetUser ctx.User false "Invalid gzip header"])
  else
  -- CHECK TARGET USER DOES NOT EXIST
  let existingUser := (ms.db.scanUserId targetUser).isNone
  if existingUser then
    ([("success", .bool true),
      ("valid", .bool false),
      ("warning", .str "Target user already exists. Set overwrite_existing=true to replace.")],
     [])
  else
  -- CHECK DISK SPACE
  match c.getAvailableDiskSpace ms.homebaseDir with
  | .error _ => (errorResponse "cannot determine available disk space", [])
  | .ok diskSpace =>
  -- Need 2x backup size (extraction + application)
  let requiredSpace := fileSize * 2
  if diskSpace < requiredSpace then
    (errorResponse ("insufficient disk space (need " ++
        toString (requiredSpace.tdiv (1024 * 1024 * 1024)) ++ " GB, have " ++
        toString (diskSpace.tdiv (1024 * 1024 * 1024)) ++ " GB)"),
      [Call.auditLog "migration_validate" targetUser ctx.User false
        ("Insufficient disk space: " ++ toString diskSpace ++ " available, " ++
          toString requiredSpace ++ " required")])
  else
  -- CHECK REQUIRED SERVICES
  let services := ["mysql", "dovecot", "exim4"]
  let missingServices := services.filter (fun svc => !c.isServiceRunning svc)
  if missingServices.length > 0 then
    ([("success", .bool true),
      ("valid", .bool false),
      ("warning", .str ("Required services not running: " ++ ", ".intercalate missingServices))],
     [])
  else
  ([("success", .bool true),
    ("valid", .bool true),
    ("backup_path", .str backupPath),
    ("backup_format", .str backupFormat),
    ("backup_size", .int fileSize),
    ("target_user", .str targetUser),
    ("disk_available", .int diskSpace),
    ("message", .str "Backup is valid and ready for migration")],
   [Call.auditLog "migration_validate" targetUser ctx.User true
      ("Validation passed: format=" ++ backupFormat ++ ", size=" ++ toString fileSize ++
        " bytes")])

/-! ## Analysis request, selective restore -/

/-- Go `AnalyzeBackup`. -/
def AnalyzeBackup (c : Collaborators) (_ms : MigrationService) (ctx : ActionContext)
    (params : GoMap) : GoMap × List Call :=
  match getString params "backup_path" with
  | none => (errorResponse "backup_path parameter required", [])
  | some backupPath =>
  if backupPath = "" then (errorResponse "backup_path parameter required", []) else
  match getString params "target_user" with
  | none => (errorResponse "target_user parameter required", [])
  | some targetUser =>
  if targetUser = "" then (errorResponse "target_user parameter required", []) else
  -- Queue async job
  match c.queueAnalysisJob backupPath targetUser ctx.User with
  | .error _ =>
    (errorResponse "failed to queue analysis job",
      [Call.queueAnalysisJob backupPath targetUser ctx.User,
       Call.auditLog "migration_analyze" targetUser ctx.User false "Job queue failed"])
  | .ok jobID =>
    ([("success", .bool true),
      ("job_id", .int jobID),
      ("status", .str "analyzing"),
      ("message", .str "Backup analysis in progress")],
     [Call.queueAnalysisJob backupPath targetUser ctx.User,
      Call.auditLog "migration_analyze" targetUser ctx.User true
        ("Analysis job queued: " ++ toString jobID)])

/-- Put a formatted field where its key belongs among fields already sorted by key. -/
def insertField (kv : String × String) : List (String × String) → List (String × String)
  | [] => [kv]
  | x :: xs => if kv.1.data < x.1.data then kv :: x :: xs else x :: insertField kv xs

/-- Go `%v` of a `float64` whose value is the integer `x` (format `g` with the shortest digits):
below a million in magnitude the integer is printed as it is; from a million upwards the exponent
form is used, the first digit, then the further digits up to the last that is not zero behind a
point, then `e+` and the exponent with two digits at least, as in `1e+06` and `1.234567e+06`.
The digits of `x` are the shortest ones for magnitudes below `2 ^ 53`, where a `float64` holds
every integer exactly; a value with a fraction has no representation in `Value`. -/
def formatFloat64 (x : Int) : String :=
  if x.natAbs < 1000000 then toString x
  else
    let digits := (toString x.natAbs).data
    let mantissa := (digits.reverse.dropWhile (fun d => d = '0')).reverse
    let exponent := digits.length - 1
    (if x < 0 then "-" else "") ++ String.mk (mantissa.take 1) ++
      (if mantissa.drop 1 = [] then "" else "." ++ String.mk (mantissa.drop 1)) ++
      "e+" ++ (if exponent < 10 then "0" else "") ++ toString exponent

mutual
/-- Go `fmt.Sprintf("%v", v)`: a map prints as `map[k1:v1 k2:v2]` with its keys sorted, a slice as
`[a b]`, a `float64` as `formatFloat64` has it. -/
def Value.format : Value → String
  | .str s => s
  | .float64 x => formatFloat64 x
  | .int n => toString n
  | .bool b => if b then "true" else "false"
  | .strs xs => "[" ++ " ".intercalate xs ++ "]"
  | .obj fields =>
    "map[" ++
      " ".intercalate
        (((Value.formatFields fields).foldr insertField []).map (fun kv => kv.1 ++ ":" ++ kv.2)) ++
      "]"
/-- The fields of a map, each value formatted. -/
def Value.formatFields : List (String × Value) → List (String × String)
  | [] => []
  | (k, v) :: rest => (k, Value.format v) :: Value.formatFields rest
end

/-- The name under which a run-time panic reports the dynamic type of a value. -/
def Value.typeName : Value → String
  | .str _ => "string"
  | .float64 _ => "float64"
  | .int _ => "int64"
  | .bool _ => "bool"
  | .strs _ => "[]string"
  | .obj _ => "map[string]interface \x7b\x7d"

/-- Go `SelectiveRestore`. The type assertion on `params["components"]` has one result only, so
it panics when the entry is absent or of another type: `.error` is that run-time panic, `.ok` a
normal return. -/
def SelectiveRestore (_ms : MigrationService) (ctx : ActionContext) (params : GoMap) :
    Except String (GoMap × List Call) :=
  match getString params "backup_path" with
  | none => .ok (errorResponse "backup_path parameter required", [])
  | some backupPath =>
  if backupPath = "" then .ok (errorResponse "backup_path parameter required", []) else
  let restoreMode :=
    match getString params "mode" with
    | some mode => mode
    | none => "merge"
  -- Validate mode
  if restoreMode ≠ "merge" ∧ restoreMode ≠ "overwrite" then
    .ok (errorResponse "mode must be \x27merge\x27 or \x27overwrite\x27", [])
  else
  -- Components to restore
  match params.lookup "components" with
  | some (.obj components) =>
    .ok ([("success", .bool true), ("message", .str "Selective restore job queued")],
      [Call.auditLog "migration_selective_restore" "" ctx.User true
        ("Selective restore queued: mode=" ++ restoreMode ++ ", components=" ++
          (Value.obj components).format)])
  | some other =>
    .error ("interface conversion: interface \x7b\x7d is " ++ other.typeName ++
      ", not map[string]interface \x7b\x7d")
  | none =>
    .error "interface conversion: interface \x7b\x7d is nil, not map[string]interface \x7b\x7d"

/-! ## Job record and request conditions used in the statements -/

/-- Modelled from the spec: the body of `updateJobStatus` is missing from `migration.go` (it is
the comment "Update job status in database"). Following the spec's persisted job record, a call
`updateJobStatus(jobID, status, progress, errorMsg)` stores the three values it is given in the
record of job `jobID`; the function has no parameter for any other column, so `current_step` and
the rest stay as they are. `recordAfter` is the record of `job` once the recorded calls have been
made. -/
def recordAfter (job : MigrationJob) (calls : List Call) : MigrationJob :=
  calls.foldl
    (fun j x =>
      match x with
      | .updateJobStatus id status progress errorMsg =>
        if id = j.ID then { j with Status := status, Progress := progress, ErrorMsg := errorMsg }
        else j
      | _ => j)
    job

/-- The requests that the claim on the input checks of `ValidateBackup` names as rejected:
`backup_path` missing, empty, not absolute or containing `..`, or `target_user` missing or not a
user name of 1 to 32 characters from `a-z`, `0-9`, `_`, `-`. -/
def BadValidateInput (params : GoMap) : Prop :=
  getString params "backup_path" = none ∨ getString params "backup_path" = some "" ∨
    (∃ backupPath, getString params "backup_path" = some backupPath ∧
      (filepath.IsAbs backupPath = false ∨ strings.Contains backupPath ".." = true)) ∨
    getString params "target_user" = none ∨
    (∃ targetUser, getString params "target_user" = some targetUser ∧
      matchesUsername targetUser = false)

/-- The messages of the four input-error responses of `ValidateBackup`. -/
def inputErrors : List String :=
  ["backup_path parameter required", "target_user parameter required", "invalid backup path",
   "invalid target username"]

/-- All checks of `ValidateBackup` before the disk-space check pass for the request, the target
user does not exist (the user query returns an error), the backup file has `fileSize` bytes and
`getAvailableDiskSpace` reports `diskSpace` bytes at the home root. A file size is not negative;
with the bound of 500 GiB this keeps the `int64` product `fileSize * 2` exact. -/
def ReachesDiskCheck (c : Collaborators) (os : OS) (ms : MigrationService) (params : GoMap)
    (backupPath targetUser : String) (fileSize diskSpace : Int) : Prop :=
  getString params "backup_path" = some backupPath ∧
  getString params "target_user" = some targetUser ∧
  strings.Contains backupPath ".." = false ∧
  filepath.IsAbs backupPath = true ∧
  matchesUsername targetUser = true ∧
  os.Stat backupPath = .ok { IsDir := false, Size := fileSize } ∧
  0 ≤ fileSize ∧
  fileSize ≤ 500 * 1024 * 1024 * 1024 ∧
  detectBackupFormat backupPath ≠ "" ∧
  (∃ file header, os.Open backupPath = .ok file ∧ file.read2 = .ok header ∧
    (strings.HasSuffix backupPath ".gz" = true →
      header.getD 0 0 = 0x1f ∧ header.getD 1 0 = 0x8b)) ∧
  ms.db.scanUserId targetUser ≠ none ∧
  c.getAvailableDiskSpace ms.homebaseDir = .ok diskSpace

/-- The response of `ValidateBackup` for a target user that exists. -/
def existingUserWarning : GoMap :=
  [("success", .bool true), ("valid", .bool false),
   ("warning", .str "Target user already exists. Set overwrite_existing=true to replace.")]

/-- The message of the insufficient-disk-space response for `fileSize` and `diskSpace` bytes. -/
def insufficientSpaceMessage (fileSize diskSpace : Int) : String :=
  "insufficient disk space (need " ++ toString ((fileSize * 2).tdiv (1024 * 1024 * 1024)) ++
    " GB, have " ++ toString (diskSpace.tdiv (1024 * 1024 * 1024)) ++ " GB)"

/-! ## Preview, approval token -/

/-- Go `verifyMigrationApprovalToken`: its body is the comment "Verify CSRF token" followed by
`return true`. -/
def verifyMigrationApprovalToken (_token : String) (_jobID : Int) : Bool :=
  -- Verify CSRF token
  true

/-- Go `simulateMigration`. -/
def simulateMigration (_ms : MigrationService) (_jobID : Int) : GoMap :=
  [("would_create",
    .obj [("users", .int 1), ("domains", .int 5), ("emails", .int 25), ("databases", .int 3),
          ("dns_zones", .int 1), ("ssl_certs", .int 1)])]

/-- Go `PreviewMigration`. It calls nothing that is recorded. -/
def PreviewMigration (ms : MigrationService) (_ctx : ActionContext) (params : GoMap) :
    GoMap × List Call :=
  match getFloat64 params "job_id" with
  | none => (errorResponse "job_id parameter required", [])
  | some jobID =>
  -- Simulate migration without applying changes
  let simulation := simulateMigration ms jobID
  ([("success", .bool true),
    ("simulation", .obj simulation),
    ("dry_run", .bool true),
    ("message", .str "This is a preview. No changes have been made."),
    ("next_action", .str "Call migration_apply with approval=true to proceed")],
   [])

/-- The counts of a persisted plan under the keys of `would_create`, one user being created per
job. -/
def planCounts (plan : MigrationPlan) : GoMap :=
  [("users", .int 1), ("domains", .int plan.Domains.length),
   ("emails", .int plan.EmailAccounts.length), ("databases", .int plan.Databases.length),
   ("dns_zones", .int plan.DNSZones.length), ("ssl_certs", .int plan.SSLCertificates.length)]

/-- The `would_create` entry of a preview response. -/
def wouldCreate (response : GoMap) : Option Value :=
  match response.lookup "simulation" with
  | some (.obj simulation) => simulation.lookup "would_create"
  | _ => none

/-! ## The scratch directory -/

/-- Whether the directory `dir` exists once the recorded calls have been made, each taken to
succeed: `os.MkdirAll(p)` creates `p` with all its parents, so `dir` exists after it when `p` lies
within `dir`; `os.RemoveAll(p)` removes `p` with everything below it, so `dir` is gone after it
when `dir` lies within `p`. The other recorded calls neither create nor remove a directory. -/
def dirExistsAfter (dir : String) (initially : Bool) (calls : List Call) : Bool :=
  calls.foldl
    (fun present x =>
      match x with
      | .osMkdirAll p => if liesWithin dir p then true else present
      | .osRemoveAll p => if liesWithin p dir then false else present
      | _ => present)
    initially

/-! ## Password validation (`src/backend/validation.go`) -/

/-- The four flags of the loop of `ValidatePassword`. -/
structure PasswordFlags where
  hasUpper : Bool
  hasLower : Bool
  hasDigit : Bool
  hasSpecial : Bool
  deriving DecidableEq, Repr

/-- One turn of the loop of `ValidatePassword`: the `switch` takes the first case that matches.
`isPunct` and `isSymbol` are Go `unicode.IsPunct` and `unicode.IsSymbol`, whose tables are not
part of the repository. -/
def passwordStep (isPunct isSymbol : Char → Bool) (flags : PasswordFlags) (ch : Char) :
    PasswordFlags :=
  if 'A' ≤ ch ∧ ch ≤ 'Z' then { flags with hasUpper := true }
  else if 'a' ≤ ch ∧ ch ≤ 'z' then { flags with hasLower := true }
  else if '0' ≤ ch ∧ ch ≤ '9' then { flags with hasDigit := true }
  else if isPunct ch || isSymbol ch || ch == ' ' then { flags with hasSpecial := true }
  else flags

/-- Go `ValidatePassword`. `len(password)` is the number of bytes of the string. -/
def ValidatePassword (isPunct isSymbol : Char → Bool) (password : String) : GoError :=
  if password.utf8ByteSize < 12 then
    some "password must be at least 12 characters"
  else if password.utf8ByteSize > 128 then
    some "password must be less than 128 characters"
  else
    -- Require mix of: uppercase, lowercase, digit, special char
    let flags := password.data.foldl (passwordStep isPunct isSymbol)
      { hasUpper := false, hasLower := false, hasDigit := false, hasSpecial := false }
    if !flags.hasUpper then some "password must contain at least one uppercase letter"
    else if !flags.hasLower then some "password must contain at least one lowercase letter"
    else if !flags.hasDigit then some "password must contain at least one digit"
    else if !flags.hasSpecial then some "password must contain at least one special character"
    else none

/-! ## Account lockout (`src/backend/security.go`) -/

/-- Go `AccountLockout`. A `time.Time` is the number of nanoseconds since a fixed instant and a
`time.Duration` a number of nanoseconds; an email without an entry in the map has no attempts. -/
structure AccountLockout where
  attempts : String → List Int
  maxAttempts : Int
  lockoutDuration : Int

/-- Go `NewAccountLockout`. -/
def NewAccountLockout (maxAttempts lockoutDuration : Int) : AccountLockout :=
  { attempts := fun _ => [], maxAttempts := maxAttempts, lockoutDuration := lockoutDuration }

/-- Go `RecordFailedAttempt`, called when `time.Now()` is `now`. -/
def AccountLockout.RecordFailedAttempt (al : AccountLockout) (email : String) (now : Int) :
    AccountLockout :=
  let appended := al.attempts email ++ [now]
  -- Clean old attempts outside lockout window
  let recent := appended.filter (fun t => now - t < al.lockoutDuration)
  { al with attempts := fun e => if e = email then recent else al.attempts e }

/-- Go `IsLocked`. -/
def AccountLockout.IsLocked (al : AccountLockout) (email : String) : Bool :=
  decide (((al.attempts email).length : Int) ≥ al.maxAttempts)

/-- Go `GetRemainingTime`, called when `time.Now()` is `now`. -/
def AccountLockout.GetRemainingTime (al : AccountLockout) (email : String) (now : Int) : Int :=
  let attempts := al.attempts email
  if attempts.length = 0 ∨ (attempts.length : Int) < al.maxAttempts then 0
  else
    -- Lock time is based on first recent attempt
    let lockedAt := attempts.headD 0
    let unlocksAt := lockedAt + al.lockoutDuration
    let remaining := unlocksAt - now
    if remaining < 0 then 0 else remaining

/-- Go `Reset`. -/
def AccountLockout.Reset (al : AccountLockout) (email : String) : AccountLockout :=
  { al with attempts := fun e => if e = email then [] else al.attempts e }

/-- The tracker after failed attempts for `email` at the given times, in order. -/
def AccountLockout.recordAll (al : AccountLockout) (email : String) (times : List Int) :
    AccountLockout :=
  times.foldl (fun a t => a.RecordFailedAttempt email t) al

/-! ## Roles and permissions (`src/backend/rbac.go`) -/

/-- Go `RolePermissions`: the permission lists of the four roles; `none` for a key that the map
does not hold. -/
def RolePermissions (role : String) : Option (List String) :=
  if role = "user" then
    some ["manage_own_domains", "manage_own_email", "view_own_metrics"]
  else if role = "reseller" then
    some ["manage_own_domains", "manage_own_email", "view_own_metrics",
          "manage_resellers", "manage_reseller_users", "manage_reseller_domains"]
  else if role = "admin" then
    some ["manage_own_domains", "manage_own_email", "view_own_metrics",
          "manage_resellers", "manage_reseller_users", "manage_reseller_domains",
          "manage_all_domains", "manage_all_users", "manage_servers", "manage_packages",
          "manage_services"]
  else if role = "root" then
    some ["manage_own_domains", "manage_own_email", "view_own_metrics",
          "manage_resellers", "manage_reseller_users", "manage_reseller_domains",
          "manage_all_domains", "manage_all_users", "manage_servers", "manage_packages",
          "manage_services", "manage_settings", "manage_admins", "system_access"]
  else none

/-- Go `HasPermission`. -/
def HasPermission (role permission : String) : Bool :=
  match RolePermissions role with
  | none => false
  | some permissions => permissions.any (fun p => p == permission)

/-- The place of a role in the order user, reseller, admin, root. -/
def roleRank (role : String) : Option Nat :=
  if role = "user" then some 0
  else if role = "reseller" then some 1
  else if role = "admin" then some 2
  else if role = "root" then some 3
  else none

/-! ## Cgroup paths (`src/agent/cgroups.go`) -/

namespace strings

/-- The loop of Go `strings.ReplaceAll` for a non-empty `old`: the text is read from the left,
`skip` characters of a match still to be passed over; where `old` starts, `new` is written and
the match is passed over, so matches do not overlap. -/
def replaceFrom (old new : List Char) : Nat → List Char → List Char
  | _, [] => []
  | skip + 1, _ :: cs => replaceFrom old new skip cs
  | 0, c :: cs =>
    if old.isPrefixOf (c :: cs) then new ++ replaceFrom old new (old.length - 1) cs
    else c :: replaceFrom old new 0 cs

/-- Go `strings.ReplaceAll`. An empty `old` matches before every character and at the end. -/
def ReplaceAll (s old new : String) : String :=
  if old = "" then ⟨new.data ++ s.data.flatMap (fun c => c :: new.data)⟩
  else ⟨replaceFrom old.data new.data 0 s.data⟩

/-- Go `strings.Join`. -/
def Join (elems : List String) (sep : String) : String :=
  sep.intercalate elems

end strings

namespace filepath

/-- Go `filepath.Join` of any number of elements (the library function `join`): the elements from
the first non-empty one onwards, joined by the separator and cleaned; the empty string when there
is no such element. -/
def join : List String → String
  | [] => ""
  | e :: rest => if e ≠ "" then Clean (strings.Join (e :: rest) "/") else join rest

end filepath

/-- Go `CgroupManager`. -/
structure CgroupManager where
  basePath : String
  version : Int
  enabled : Bool

/-- The characters that the expression `[^a-zA-Z0-9._-]` of `sanitizeFilename` does not match. -/
def filenameChar (c : Char) : Bool :=
  ('a' ≤ c && c ≤ 'z') || ('A' ≤ c && c ≤ 'Z') || ('0' ≤ c && c ≤ '9') ||
    c == '.' || c == '_' || c == '-'

/-- Go `sanitizeFilename`: every character that the expression matches is replaced by `_`. -/
def sanitizeFilename (s : String) : String :=
  ⟨s.data.map (fun c => if filenameChar c then c else '_')⟩

/-- The name of the cgroup directory of an account: `fmt.Sprintf("user-%s.slice", accountID)` on
the account ID as `getAccountCgroupPath` has sanitized it. -/
def accountSliceName (accountID : String) : String :=
  -- Sanitize account ID to prevent path traversal
  let accountID := strings.ReplaceAll accountID "/" "_"
  let accountID := strings.ReplaceAll accountID ".." "__"
  let accountID := sanitizeFilename accountID
  "user-" ++ accountID ++ ".slice"

/-- Go `getAccountCgroupPath`. -/
def getAccountCgroupPath (cm : CgroupManager) (accountID : String) : String :=
  filepath.join [cm.basePath, "user.slice", accountSliceName accountID]

/-! ## Sample data for the concrete instances -/

/-- Go `NewMigrationService`; the directories it creates are recorded. -/
def NewMigrationService (db : DB) (config : GoMap) : MigrationService × List Call :=
  let tmpDir :=
    match getString config "tmp_dir" with
    | some v => if v ≠ "" then v else "/tmp/npanel-migrations"
    | none => "/tmp/npanel-migrations"
  let backupDir :=
    match getString config "backup_dir" with
    | some v => if v ≠ "" then v else "/var/backups/migrations"
    | none => "/var/backups/migrations"
  ({ db := db, tmpDir := tmpDir, homebaseDir := "/home", backupDir := backupDir,
     maxConcurrentJobs := 3 },
   [Call.osMkdirAll tmpDir, Call.osMkdirAll backupDir])

/-- A plan for target user alice with one domain and the given conflicts. -/
def samplePlan (conflicts : List String) : MigrationPlan where
  TargetUser := "alice"
  TargetUID := 1001
  TargetGID := 1001
  BackupFormat := "cpmove-tar.gz"
  BackupVersion := ""
  BackupDate := 0
  TotalSize := 4096
  Domains := [{ DomainName := "alice.example", IsAddon := false, WebRoot := "", DocumentRoot := "",
                PublicHTML := "", LogDir := "", Size := 4096, SSL := false }]
  EmailAccounts := []
  Databases := []
  DNSZones := []
  SSLCertificates := []
  Warnings := []
  Conflicts := conflicts
  SkipReasons := []

/-- Job 7 for target user alice, stored with the given status and plan conflicts. -/
def sampleJob (status : String) (conflicts : List String) : MigrationJob where
  ID := 7
  Status := status
  Progress := 0
  CurrentStep := ""
  SourceType := "cpmove"
  SourcePath := "/var/backups/migrations/cpmove-alice.tar.gz"
  TargetUser := "alice"
  DryRunMode := false
  CreatedAt := 0
  UpdatedAt := 0
  ErrorMsg := ""
  Plan := samplePlan conflicts
  LogPath := ""

/-- A service with default configuration whose job table holds exactly `job` and whose user
table is empty. -/
def serviceWith (job : MigrationJob) : MigrationService :=
  (NewMigrationService
    { migration_jobs := fun id => if id = job.ID then some job else none,
      scanUserId := fun _ => some "sql: no rows in result set" } []).1

/-- An archive as the tar reader sees it: a directory, a regular file, an entry that climbs out
of the extraction directory, an absolute entry and a symbolic link. -/
def sampleArchive : File where
  read2 := .ok [0x1f, 0x8b]
  gzipErr := none
  entries :=
    [{ Name := "homedir/", Typeflag := tar.TypeDir },
     { Name := "homedir/public_html/index.html", Typeflag := tar.TypeReg },
     { Name := "../../etc/passwd", Typeflag := tar.TypeReg },
     { Name := "/etc/cron.d/job", Typeflag := tar.TypeReg },
     { Name := "homedir/www", Typeflag := '2' }]
  tarErr := none

/-- A file system that holds the one file `file` at `path`. -/
def osWith (path : String) (info : FileInfo) (file : File) : OS where
  Stat := fun p => if p = path then .ok info else .error "stat: no such file or directory"
  Open := fun p => if p = path then .ok file else .error "open: no such file or directory"

/-- Collaborators as in the source, except that the email and the SSL sub-parser fail. -/
def stubsEmailSslFail : Collaborators :=
  { sourceStubs with
    parseCPanelEmail := fun _ plan => (some "no mail directory", plan)
    parseCPanelSSL := fun _ plan => (some "bad certificate", plan) }

/-- The two parameters of a validation or analysis request. -/
def backupParams (backupPath targetUser : String) : GoMap :=
  [("backup_path", .str backupPath), ("target_user", .str targetUser)]

/-- The administrator issuing the sample requests. -/
def adminCtx : ActionContext := { User := "admin" }

/-- Collaborators as in the source, except that restoring the databases fails. -/
def stubsDatabaseFails : Collaborators :=
  { sourceStubs with restoreDatabases := fun _ => some "disk full" }

/-- Collaborators as in the source, except that the reversal fails. -/
def stubsRollbackFails : Collaborators :=
  { sourceStubs with rollbackMigrationForUser := fun _ => some "userdel: user is logged in" }

/-- Collaborators as in the source, except that a token is accepted only for the job whose
number it carries. -/
def stubsJobBoundToken : Collaborators :=
  { sourceStubs with
    verifyMigrationApprovalToken := fun token jobID => token == "approve-" ++ toString jobID }

/-- A service with default configuration whose job table holds exactly `job` and whose user
table holds exactly the user `user`: the user query finds a row with the column `id` for `user`
and no row for any other name, and the scan into `nil` returns what `database/sql` returns. -/
def serviceWithUser (job : MigrationJob) (user : String) : MigrationService :=
  (NewMigrationService
    { migration_jobs := fun id => if id = job.ID then some job else none,
      scanUserId := fun u => sql.scanNil (if u = user then some "id" else none) } []).1

/-- Collaborators as in the source, except that `diskSpace` bytes are available. -/
def stubsWithDiskSpace (diskSpace : Int) : Collaborators :=
  { sourceStubs with getAvailableDiskSpace := fun _ => .ok diskSpace }

/-- Collaborators as in the source, except that the reversal fails with the given error. -/
def stubsRollbackError (err : String) : Collaborators :=
  { sourceStubs with rollbackMigrationForUser := fun _ => some err }

/-- The path of the sample backup. -/
def sampleBackupPath : String := "/var/backups/migrations/cpmove-alice.tar.gz"

/-- A file system that holds the sample backup with `fileSize` bytes. -/
def osWithBackup (fileSize : Int) : OS :=
  osWith sampleBackupPath { IsDir := false, Size := fileSize } sampleArchive

/-- An archive whose second and third entry have names that begin with two dots and name a
directory and a file inside the extraction directory. -/
def dottedArchive : File where
  read2 := .ok [0x1f, 0x8b]
  gzipErr := none
  entries :=
    [{ Name := "homedir/", Typeflag := tar.TypeDir },
     { Name := "..snapshot", Typeflag := tar.TypeDir },
     { Name := "..data/config.yaml", Typeflag := tar.TypeReg },
     { Name := "homedir/index.html", Typeflag := tar.TypeReg }]
  tarErr := none

/-- The scratch directory of the sample analysis. -/
def sampleExtractDir : String := "/tmp/npanel-migrations/analysis-1"

/-- An apply request for job `jobID` with the approval token `token`. -/
def applyRequest (jobID : Int) (token : String) : GoMap :=
  [("job_id", .float64 jobID), ("approval_token", .str token)]

/-- A preview request for job `jobID`. -/
def previewRequest (jobID : Int) : GoMap :=
  [("job_id", .float64 jobID)]

/-- A plan with no domain, mailbox, database, DNS zone or certificate. -/
def emptyPlan : MigrationPlan :=
  { samplePlan [] with Domains := [] }

/-- A password of 128 characters of one byte each: an uppercase letter, a lowercase letter, a
digit, a space and 124 further lowercase letters. -/
def password128 : String :=
  "Aa1 " ++ String.mk (List.replicate 124 'x')

/-- The tracker of the server, `NewAccountLockout(5, 15*time.Minute)`. -/
def serverLockout : AccountLockout :=
  NewAccountLockout 5 (15 * 60 * 1000000000)

/-- Five failed attempts for one email, one second apart. -/
def fiveAttempts : List Int :=
  [0, 1000000000, 2000000000, 3000000000, 4000000000]

/-- One hour, in nanoseconds. -/
def oneHour : Int := 3600 * 1000000000

/-- The cgroup manager that `NewCgroupManager` returns. -/
def sampleCgroupManager : CgroupManager :=
  { basePath := "/sys/fs/cgroup", version := 2, enabled := true }

/-! ## Theorems -/

/-- C1: fail-fast apply. For every step k of the eight and every behaviour of the
collaborators, if the steps before k return nil and step k returns the error `err`, then
`applyMigrationAsync` returns `err`; the calls it makes are exactly the invocations of steps 1..k
followed by `updateJobStatus(jobID, "failed", 0, "<name of step k>: <err>")` and the audit record
of the same message; hence no later step is invoked and no status `complete` is written. -/
theorem applyMigrationAsync_fail_fast (c : Collaborators) (jobID : Int) (adminUser : String)
    (seconds : Int) (k : Fin 8) (err : String)
    (hprev : ∀ s ∈ ApplyStep.order.take k, ApplyStep.run c s jobID = none)
    (hk : ApplyStep.run c (ApplyStep.nth k) jobID = some err) :
    (applyMigrationAsync c jobID adminUser seconds).1 = some err ∧
    (applyMigrationAsync c jobID adminUser seconds).2 =
      (ApplyStep.order.take (k + 1)).map (fun s => ApplyStep.call s jobID) ++
        [Call.updateJobStatus jobID "failed" 0
            ((ApplyStep.nth k).failureName ++ ": " ++ err),
         Call.auditLog "migration_error" ("job_" ++ toString jobID) adminUser false
            ((ApplyStep.nth k).failureName ++ ": " ++ err)] ∧
    (∀ s ∈ ApplyStep.order.drop (k + 1),
      ApplyStep.call s jobID ∉ (applyMigrationAsync c jobID adminUser seconds).2) ∧
    (∀ x ∈ (applyMigrationAsync c jobID adminUser seconds).2,
      x.writesStatus "complete" = false) := by
  obtain ⟨k, hk8⟩ := k
  interval_cases k <;>
    simp [ApplyStep.order, ApplyStep.nth, ApplyStep.run, List.getD] at hprev hk <;>
    simp [applyMigrationAsync, after, handleMigrationError, hprev, hk, ApplyStep.order,
      ApplyStep.nth, ApplyStep.call, ApplyStep.failureName, Call.writesStatus]

/-- Witness of C1: step 4 (restore databases) fails with "disk full" for job 7. -/
theorem applyMigrationAsync_fail_fast_witness :
    applyMigrationAsync stubsDatabaseFails 7 "admin" 5 =
      (some "disk full",
        [Call.createNPanelUser 7, Call.createUserDirectories 7, Call.restoreHomeDirectory 7,
         Call.restoreDatabases 7,
         Call.updateJobStatus 7 "failed" 0 "database restore failed: disk full",
         Call.auditLog "migration_error" "job_7" "admin" false
           "database restore failed: disk full"]) :=
  have h := applyMigrationAsync_fail_fast stubsDatabaseFails 7 "admin" 5 ⟨3, by decide⟩
    "disk full" (by decide) (by decide)
  Prod.ext h.1 (h.2.1.trans (by decide))

/-- C2: when all eight collaborator steps return nil, `applyMigrationAsync` invokes create user,
create directories, restore home directory, restore databases, restore email accounts, restore
DNS zones, restore SSL certificates and post-migration validation once each, in this order, then
calls `updateJobStatus(jobID, "complete", 100, "")`, writes the audit record and returns nil. -/
theorem applyMigrationAsync_all_succeed (c : Collaborators) (jobID : Int) (adminUser : String)
    (seconds : Int) (hall : ∀ s ∈ ApplyStep.order, ApplyStep.run c s jobID = none) :
    applyMigrationAsync c jobID adminUser seconds =
      (none,
        [Call.createNPanelUser jobID, Call.createUserDirectories jobID,
         Call.restoreHomeDirectory jobID, Call.restoreDatabases jobID,
         Call.restoreEmailAccounts jobID, Call.restoreDNSZones jobID,
         Call.restoreSSLCertificates jobID, Call.validateMigrationCompletion jobID,
         Call.updateJobStatus jobID "complete" 100 "",
         Call.auditLog "migration_apply_complete" ("job_" ++ toString jobID) adminUser true
           ("Migration completed in " ++ toString seconds ++ " seconds")]) := by
  simp [ApplyStep.order, ApplyStep.run] at hall
  simp [applyMigrationAsync, after, hall]

/-- Witness of C2: the collaborators of the source, which all return nil, on job 7. -/
theorem applyMigrationAsync_all_succeed_witness :
    applyMigrationAsync sourceStubs 7 "admin" 5 =
      (none,
        [Call.createNPanelUser 7, Call.createUserDirectories 7, Call.restoreHomeDirectory 7,
         Call.restoreDatabases 7, Call.restoreEmailAccounts 7, Call.restoreDNSZones 7,
         Call.restoreSSLCertificates 7, Call.validateMigrationCompletion 7,
         Call.updateJobStatus 7 "complete" 100 "",
         Call.auditLog "migration_apply_complete" "job_7" "admin" true
           "Migration completed in 5 seconds"]) :=
  (applyMigrationAsync_all_succeed sourceStubs 7 "admin" 5 (by decide)).trans (by decide)

/-! ### The extractor stays inside the extraction directory -/

namespace filepath

theorem elements_ne_nil (p : List Char) : elements p ≠ [] := by
  induction p with
  | nil => simp [elements]
  | cons c cs ih =>
    unfold elements
    split
    · simp
    · split <;> simp

theorem elements_append_sep (a b : List Char) :
    elements (a ++ '/' :: b) = elements a ++ elements b := by
  induction a with
  | nil => simp [elements]
  | cons c cs ih =>
    by_cases hc : c = '/'
    · simp [elements, hc, ih]
    · have hne := elements_ne_nil cs
      cases hcs : elements cs with
      | nil => exact absurd hcs hne
      | cons e es => simp [elements, hc, ih, hcs]

theorem elements_of_no_sep (e : List Char) (h : '/' ∉ e) : elements e = [e] := by
  induction e with
  | nil => simp [elements]
  | cons c cs ih =>
    simp only [List.mem_cons, not_or] at h
    have hc : c ≠ '/' := fun hc => h.1 hc.symm
    simp [elements, hc, ih h.2]

theorem no_sep_of_mem_elements (p : List Char) : ∀ e ∈ elements p, '/' ∉ e := by
  induction p with
  | nil => simp [elements]
  | cons c cs ih =>
    by_cases hc : c = '/'
    · simp only [elements, hc, if_true, List.mem_cons]
      rintro e (rfl | he)
      · simp
      · exact ih e he
    · have hne := elements_ne_nil cs
      cases hcs : elements cs with
      | nil => exact absurd hcs hne
      | cons e es =>
        rw [hcs] at ih
        simp only [elements, hc, if_false, hcs, List.mem_cons]
        rintro x (rfl | hx)
        · have := ih e (by simp)
          simp only [List.mem_cons, not_or]
          exact ⟨fun h => hc h.symm, this⟩
        · exact ih x (by simp [hx])

theorem elements_joined (xs : List (List Char)) (hne : xs ≠ []) (h : ∀ e ∈ xs, '/' ∉ e) :
    elements (joined xs) = xs := by
  induction xs with
  | nil => exact absurd rfl hne
  | cons e es ih =>
    cases es with
    | nil => simpa [joined] using elements_of_no_sep e (h e (by simp))
    | cons e2 es2 =>
      have h1 := elements_of_no_sep e (h e (by simp))
      have h2 := ih (by simp) (fun x hx => h x (by simp [hx]))
      simp [joined, elements_append_sep, h1, h2]

theorem cleanStep_normal (rooted : Bool) (out : List (List Char)) (e : List Char)
    (h : Normal e) : cleanStep rooted out e = out ++ [e] := by
  obtain ⟨h1, h2, h3, _⟩ := h
  simp [cleanStep, h1, h2, h3]

theorem foldl_cleanStep_normal (rooted : Bool) (es out : List (List Char))
    (h : ∀ e ∈ es, Normal e) : es.foldl (cleanStep rooted) out = out ++ es := by
  induction es generalizing out with
  | nil => simp
  | cons e es ih =>
    rw [List.foldl_cons, cleanStep_normal rooted out e (h e (by simp)),
      ih _ (fun x hx => h x (by simp [hx]))]
    simp

theorem shape_cleanStep {rooted : Bool} {out : List (List Char)} (hs : Shape rooted out)
    (e : List Char) (he : '/' ∉ e) : Shape rooted (cleanStep rooted out e) := by
  obtain ⟨k, normals, rfl, hk, hn⟩ := hs
  by_cases h1 : e = []
  · simpa [filepath.cleanStep, h1] using ⟨k, normals, rfl, hk, hn⟩
  by_cases h2 : e = ['.']
  · simpa [filepath.cleanStep, h2] using ⟨k, normals, rfl, hk, hn⟩
  by_cases h3 : e = ['.', '.']
  · subst h3
    rcases List.eq_nil_or_concat normals with hnil | ⟨front, last, rfl⟩
    · subst hnil
      cases k with
      | zero =>
        cases rooted
        · exact ⟨1, [], by simp [filepath.cleanStep], by simp, by simp⟩
        · exact ⟨0, [], by simp [filepath.cleanStep], by simp, by simp⟩
      | succ k =>
        have hr : rooted = false := by
          cases rooted
          · rfl
          · exact absurd (hk rfl) (by simp)
        subst hr
        refine ⟨k + 2, [], ?_, by simp, by simp⟩
        have hl : (List.replicate (k + 1) ['.', '.']).getLast? = some ['.', '.'] := by
          rw [List.getLast?_eq_getLast _ (by simp)]
          simp
        simp only [filepath.cleanStep, List.append_nil, hl]
        simp [List.replicate_succ' (k + 1)]
    · have hlast : Normal last := hn last (by simp)
      refine ⟨k, front, ?_, hk, fun x hx => hn x (by simp [hx])⟩
      have hl : (List.replicate k ['.', '.'] ++ (front ++ [last])).getLast? = some last := by
        rw [← List.append_assoc, List.getLast?_append]
        simp
      have hd : (List.replicate k ['.', '.'] ++ (front ++ [last])).dropLast =
          List.replicate k ['.', '.'] ++ front := by
        rw [← List.append_assoc, List.dropLast_concat]
      simp only [filepath.cleanStep, hl, hd, List.concat_eq_append]
      simp [hlast.2.2.1]
  · refine ⟨k, normals ++ [e], ?_, hk, ?_⟩
    · simp [filepath.cleanStep, h1, h2, h3]
    · intro x hx
      rcases List.mem_append.1 hx with hx | hx
      · exact hn x hx
      · rw [List.mem_singleton.1 hx]
        exact ⟨h1, h2, h3, he⟩

theorem shape_foldl {rooted : Bool} (es : List (List Char)) (he : ∀ e ∈ es, '/' ∉ e) :
    ∀ {out : List (List Char)}, Shape rooted out →
      Shape rooted (es.foldl (filepath.cleanStep rooted) out) := by
  induction es with
  | nil => intro out hs; simpa using hs
  | cons e es ih =>
    intro out hs
    rw [List.foldl_cons]
    exact ih (fun x hx => he x (by simp [hx])) (shape_cleanStep hs e (he e (by simp)))

theorem shape_cleanElements (path : List Char) :
    Shape (path.head? = some '/') (cleanElements path) :=
  shape_foldl _ (no_sep_of_mem_elements path) ⟨0, [], by simp, by simp, by simp⟩

theorem joined_dotdot_prefix (rest : List (List Char)) :
    ['.', '.'] <+: joined (['.', '.'] :: rest) := by
  cases rest with
  | nil => simp [joined]
  | cons e es => exact ⟨'/' :: joined (e :: es), by simp [joined]⟩

theorem cleanElements_join (d c : List Char) (hd : d ≠ []) :
    cleanElements (d ++ '/' :: c) =
      (elements c).foldl (cleanStep (d.head? = some '/')) (cleanElements d) := by
  have h1 : (d ++ '/' :: c).head? = d.head? := by
    cases d with
    | nil => exact absurd rfl hd
    | cons x xs => simp
  simp [cleanElements, h1, elements_append_sep, List.foldl_append]

/-- The elements of a cleaned name that does not start with `..` are normal, and cleaning a
path that continues with the cleaned name appends exactly these elements. -/
theorem foldl_elements_cleanChars (name : List Char) (hskip : ¬ ['.', '.'] <+: cleanChars name)
    (rooted : Bool) (out : List (List Char)) :
    (elements (cleanChars name)).foldl (cleanStep rooted) out = out ++ cleanElements name ∧
      ∀ e ∈ cleanElements name, Normal e := by
  obtain ⟨k, normals, hS, hk, hn⟩ := shape_cleanElements name
  by_cases hr : name.head? = some '/'
  · have hk0 : k = 0 := hk (by simp [hr])
    subst hk0
    simp only [List.replicate_zero, List.nil_append] at hS
    refine ⟨?_, by rw [hS]; exact hn⟩
    by_cases hnil : cleanElements name = []
    · simp [cleanChars, written, hr, hnil, joined, elements, cleanStep]
    · have he := elements_joined (cleanElements name) hnil
        (by rw [hS]; exact fun e h => (hn e h).2.2.2)
      have hf := foldl_cleanStep_normal rooted (cleanElements name) out (by rw [hS]; exact hn)
      simp [cleanChars, written, hr, elements, he, cleanStep, hf]
  · by_cases hnil : cleanElements name = []
    · simp [cleanChars, written, hr, hnil, elements, cleanStep]
    · have hc : cleanChars name = joined (cleanElements name) := by
        simp [cleanChars, written, hr, hnil]
      have hk0 : k = 0 := by
        cases k with
        | zero => rfl
        | succ k =>
          exfalso
          apply hskip
          rw [hc, hS, List.replicate_succ, List.cons_append]
          exact joined_dotdot_prefix _
      subst hk0
      simp only [List.replicate_zero, List.nil_append] at hS
      refine ⟨?_, by rw [hS]; exact hn⟩
      have he := elements_joined (cleanElements name) hnil
        (by rw [hS]; exact fun e h => (hn e h).2.2.2)
      have hf := foldl_cleanStep_normal rooted (cleanElements name) out (by rw [hS]; exact hn)
      rw [hc, he, hf]

theorem head_elements_prefix (p : List Char) : ∀ e, (elements p).head? = some e → e <+: p := by
  induction p with
  | nil => simp [elements]
  | cons c cs ih =>
    intro e he
    by_cases hc : c = '/'
    · simp only [elements, hc, if_true, List.head?_cons, Option.some.injEq] at he
      subst he
      exact List.nil_prefix
    · have hne := elements_ne_nil cs
      cases hcs : elements cs with
      | nil => exact absurd hcs hne
      | cons e2 es =>
        simp only [elements, hc, if_false, hcs, List.head?_cons, Option.some.injEq] at he
        subst he
        have := ih e2 (by simp [hcs])
        exact (List.prefix_cons_inj c).2 this

theorem cleanChars_eq (p : List Char) :
    cleanChars p = written (p.head? = some '/') (cleanElements p) :=
  rfl

theorem kept_of_normal {e : List Char} (h : Normal e) : Kept e :=
  ⟨h.1, h.2.1, h.2.2.2⟩

theorem kept_of_shape {rooted : Bool} {out : List (List Char)} (hs : Shape rooted out) :
    ∀ e ∈ out, Kept e := by
  obtain ⟨k, normals, rfl, _, hn⟩ := hs
  intro e he
  rcases List.mem_append.1 he with h | h
  · rw [(List.mem_replicate.1 h).2]
    exact ⟨by simp, by simp, by simp⟩
  · exact kept_of_normal (hn e h)

theorem names_written (rooted : Bool) (xs : List (List Char)) (h : ∀ e ∈ xs, Kept e) :
    (elements (written rooted xs)).filter (fun e => e ≠ [] ∧ e ≠ ['.']) = xs := by
  have hfilter : xs.filter (fun e => e ≠ [] ∧ e ≠ ['.']) = xs :=
    List.filter_eq_self.2 (fun e he => by simpa using ⟨(h e he).1, (h e he).2.1⟩)
  by_cases hnil : xs = []
  · subst hnil
    cases rooted <;> simp [written, elements, joined]
  · have he := elements_joined xs hnil (fun e he => (h e he).2.2)
    cases rooted
    · simpa [written, hnil, he] using hfilter
    · simpa [written, elements, he] using hfilter

theorem head_joined (e : List Char) (es : List (List Char)) (h : Kept e) :
    (joined (e :: es)).head? ≠ some '/' := by
  obtain ⟨h1, _, h3⟩ := h
  cases e with
  | nil => exact absurd rfl h1
  | cons c cs =>
    have hc : c ≠ '/' := fun hc => h3 (by simp [hc])
    cases es <;> simpa [joined] using hc

theorem head_written (rooted : Bool) (xs : List (List Char)) (h : ∀ e ∈ xs, Kept e) :
    ((written rooted xs).head? = some '/') ↔ rooted = true := by
  cases rooted
  · cases xs with
    | nil => simp [written]
    | cons e es => simpa [written] using head_joined e es (h e (by simp))
  · simp [written]

theorem isAbs_iff_head (path : String) : IsAbs path = true ↔ path.data.head? = some '/' := by
  cases hd : path.data with
  | nil => simp [IsAbs, strings.HasPrefix, hd]
  | cons c cs =>
    simp only [IsAbs, strings.HasPrefix, hd, List.head?_cons, Option.some.injEq]
    show (['/'].isPrefixOf (c :: cs) = true) ↔ c = '/'
    simp only [List.isPrefixOf, Bool.and_true, beq_iff_eq]
    exact eq_comm

end filepath

/-- The target of an entry that is not skipped: the names of the cleaned extraction directory
followed by the names of the cleaned entry name, the latter all normal. -/
theorem entryTarget_data (extractDir name t : String) (hdir : extractDir ≠ "")
    (ht : entryTarget extractDir name = some t) :
    t.data = filepath.written (extractDir.data.head? = some '/')
        (filepath.cleanElements extractDir.data ++ filepath.cleanElements name.data) ∧
      ∀ e ∈ filepath.cleanElements name.data, filepath.Normal e := by
  have hne : extractDir.data ≠ [] := fun h => hdir (String.ext h)
  by_cases hskip : strings.HasPrefix (filepath.Clean name) ".." = true
  · simp [entryTarget, hskip] at ht
  · have hskip2 : ¬ ['.', '.'] <+: filepath.cleanChars name.data := by
      simpa [strings.HasPrefix, filepath.Clean] using hskip
    obtain ⟨hfold, hnormal⟩ := filepath.foldl_elements_cleanChars name.data hskip2
      (extractDir.data.head? = some '/') (filepath.cleanElements extractDir.data)
    refine ⟨?_, hnormal⟩
    simp only [entryTarget, hskip, if_false, Option.some.injEq, Bool.false_eq_true] at ht
    rw [← ht]
    have hdata : (extractDir ++ "/" ++ filepath.Clean name).data =
        extractDir.data ++ '/' :: filepath.cleanChars name.data := by
      simp [filepath.Clean, String.data_append]
    have hhead : (extractDir.data ++ '/' :: filepath.cleanChars name.data).head? =
        extractDir.data.head? := by
      cases hd : extractDir.data with
      | nil => exact absurd hd hne
      | cons x xs => simp
    have hjoin : filepath.Join extractDir (filepath.Clean name) =
        filepath.Clean (extractDir ++ "/" ++ filepath.Clean name) := by
      simp only [filepath.Join, hdir, ne_eq, not_false_eq_true, if_true]
    rw [hjoin]
    show filepath.cleanChars (extractDir ++ "/" ++ filepath.Clean name).data = _
    rw [hdata, filepath.cleanChars_eq (extractDir.data ++ _), hhead,
      filepath.cleanElements_join _ _ hne, hfold]

/-- An entry that is not skipped has its target inside the extraction directory. -/
theorem liesWithin_of_entryTarget (extractDir name t : String) (hdir : extractDir ≠ "")
    (ht : entryTarget extractDir name = some t) : liesWithin extractDir t = true := by
  obtain ⟨hdata, hnormal⟩ := entryTarget_data extractDir name t hdir ht
  have hkeptDir := filepath.kept_of_shape (filepath.shape_cleanElements extractDir.data)
  have hall : ∀ e ∈ filepath.cleanElements extractDir.data ++ filepath.cleanElements name.data,
      filepath.Kept e := by
    intro e he
    rcases List.mem_append.1 he with h | h
    · exact hkeptDir e h
    · exact filepath.kept_of_normal (hnormal e h)
  have h1 : pathNames t =
      filepath.cleanElements extractDir.data ++ filepath.cleanElements name.data := by
    rw [pathNames, hdata]
    exact filepath.names_written _ _ hall
  have h2 : pathNames (filepath.Clean extractDir) = filepath.cleanElements extractDir.data :=
    filepath.names_written _ _ hkeptDir
  have h3 : filepath.IsAbs t = filepath.IsAbs extractDir := by
    rw [Bool.eq_iff_iff, filepath.isAbs_iff_head, filepath.isAbs_iff_head, hdata,
      filepath.head_written _ _ hall]
    simp
  have h4 : ['.', '.'] ∉ filepath.cleanElements name.data :=
    fun hmem => (hnormal _ hmem).2.2.1 rfl
  simp [liesWithin, h3, h2, h1, h4]

/-- C3: for every extraction directory (a non-empty path) and every archive entry name, the loop
of `extractBackupArchive` either skips the entry or uses a target path that lies inside the
extraction directory. An entry whose cleaned name starts with the element `..` is skipped, as
`../../etc/passwd` is; an absolute entry name is not skipped but re-rooted under the extraction
directory; and every directory or file that `extractBackupArchive` creates is such a target inside
the extraction directory (or the parent directory `filepath.Dir` of one, made before a file). -/
theorem extractBackupArchive_stays_inside (extractDir name : String) (hdir : extractDir ≠ "") :
    (∀ t, entryTarget extractDir name = some t → liesWithin extractDir t = true) ∧
    ((filepath.elements (filepath.Clean name).data).head? = some ['.', '.'] →
      entryTarget extractDir name = none) ∧
    entryTarget extractDir "../../etc/passwd" = none ∧
    (filepath.IsAbs name = true →
      entryTarget extractDir name = some (filepath.Join extractDir (filepath.Clean name)) ∧
      liesWithin extractDir (filepath.Join extractDir (filepath.Clean name)) = true) ∧
    (∀ (os : OS) (backupPath : String),
      ∀ x ∈ (extractBackupArchive os backupPath extractDir).2,
        ∃ t, liesWithin extractDir t = true ∧
          (x = Call.osMkdirAll t ∨ x = Call.osCreate t ∨
            x = Call.osMkdirAll (filepath.Dir t))) := by
  refine ⟨fun t ht => liesWithin_of_entryTarget extractDir name t hdir ht, ?_, ?_, ?_, ?_⟩
  · intro hhead
    have hp := filepath.head_elements_prefix _ _ hhead
    have hskip : strings.HasPrefix (filepath.Clean name) ".." = true := by
      simpa [strings.HasPrefix] using hp
    simp [entryTarget, hskip]
  · have hskip : strings.HasPrefix (filepath.Clean "../../etc/passwd") ".." = true := by decide
    simp [entryTarget, hskip]
  · intro hname
    have hclean : (filepath.Clean name).data =
        '/' :: filepath.joined (filepath.cleanElements name.data) := by
      show filepath.cleanChars name.data = _
      simp [filepath.cleanChars, filepath.written, (filepath.isAbs_iff_head name).1 hname]
    have hskip : strings.HasPrefix (filepath.Clean name) ".." = false := by
      simp [strings.HasPrefix, hclean, List.isPrefixOf]
    have ht : entryTarget extractDir name =
        some (filepath.Join extractDir (filepath.Clean name)) := by
      simp [entryTarget, hskip]
    exact ⟨ht, liesWithin_of_entryTarget extractDir name _ hdir ht⟩
  · intro os backupPath x hx
    have hentries : ∀ (entries : List tar.Header),
        x ∈ entries.flatMap (extractEntry extractDir) →
        ∃ t, liesWithin extractDir t = true ∧
          (x = Call.osMkdirAll t ∨ x = Call.osCreate t ∨
            x = Call.osMkdirAll (filepath.Dir t)) := by
      intro entries hmem
      obtain ⟨header, _, hcall⟩ := List.mem_flatMap.1 hmem
      cases ht : entryTarget extractDir header.Name with
      | none => simp [extractEntry, ht] at hcall
      | some t =>
        have hin := liesWithin_of_entryTarget extractDir header.Name t hdir ht
        refine ⟨t, hin, ?_⟩
        by_cases hdir : header.Typeflag = tar.TypeDir
        · have hmk : x = Call.osMkdirAll t := by
            simpa [extractEntry, ht, hdir] using hcall
          exact Or.inl hmk
        · by_cases hreg : header.Typeflag = tar.TypeReg
          · have hne : tar.TypeReg ≠ tar.TypeDir := by decide
            have hor : x = Call.osMkdirAll (filepath.Dir t) ∨ x = Call.osCreate t := by
              simpa [extractEntry, ht, hreg, hne] using hcall
            rcases hor with h | h
            · exact Or.inr (Or.inr h)
            · exact Or.inr (Or.inl h)
          · simp [extractEntry, ht, hdir, hreg] at hcall
    unfold extractBackupArchive at hx
    cases hopen : os.Open backupPath with
    | error err => simp [hopen] at hx
    | ok file =>
      simp only [hopen] at hx
      split at hx
      · simp at hx
      · exact hentries _ hx

/-- Witness of C3: the absolute entry `/etc/cron.d/job` is re-rooted under the extraction
directory `/tmp/npanel-migrations/analysis-1`. -/
theorem extractBackupArchive_stays_inside_witness :
    entryTarget "/tmp/npanel-migrations/analysis-1" "/etc/cron.d/job" =
      some "/tmp/npanel-migrations/analysis-1/etc/cron.d/job" ∧
    liesWithin "/tmp/npanel-migrations/analysis-1"
      "/tmp/npanel-migrations/analysis-1/etc/cron.d/job" = true :=
  have h := (extractBackupArchive_stays_inside "/tmp/npanel-migrations/analysis-1"
    "/etc/cron.d/job" (by decide)).2.2.2.1 (by decide)
  have hjoin : filepath.Join "/tmp/npanel-migrations/analysis-1"
      (filepath.Clean "/etc/cron.d/job") =
      "/tmp/npanel-migrations/analysis-1/etc/cron.d/job" := by decide
  ⟨h.1.trans (congrArg some hjoin), hjoin ▸ h.2⟩

/-- C4: `RollbackMigration` on a stored job whose status is neither `complete` nor `failed`
returns the failure response "cannot rollback job in <status> status" and makes no call at all:
no reversal for the target user, no job-status write. So whenever `RollbackMigration` writes the
status `rolled_back`, it writes it to the job of the request, and the stored status of that job
was `complete` or `failed`. -/
theorem RollbackMigration_rejects_other_status (c : Collaborators) (ms : MigrationService)
    (ctx : ActionContext) (params : GoMap) (jobID : Int) (job : MigrationJob)
    (hid : getFloat64 params "job_id" = some jobID)
    (hjob : ms.db.migration_jobs jobID = some job) :
    (job.Status ≠ "complete" → job.Status ≠ "failed" →
      RollbackMigration c ms ctx params =
        (errorResponse ("cannot rollback job in " ++ job.Status ++ " status"), [])) ∧
    (∀ j progress errorMsg,
      Call.updateJobStatus j "rolled_back" progress errorMsg ∈
          (RollbackMigration c ms ctx params).2 →
        j = jobID ∧ (job.Status = "complete" ∨ job.Status = "failed")) := by
  constructor
  · intro h1 h2
    simp [RollbackMigration, hid, hjob, h1, h2]
  · intro j progress errorMsg hx
    by_cases hgate : job.Status ≠ "complete" ∧ job.Status ≠ "failed"
    · simp [RollbackMigration, hid, hjob, hgate] at hx
    · have hstatus : job.Status = "complete" ∨ job.Status = "failed" := by
        by_contra hne
        push_neg at hne
        exact hgate hne
      refine ⟨?_, hstatus⟩
      cases hr : c.rollbackMigrationForUser job.TargetUser with
      | none =>
        have hmem : Call.updateJobStatus j "rolled_back" progress errorMsg ∈
            [Call.rollbackMigrationForUser job.TargetUser,
             Call.updateJobStatus jobID "rolled_back" 0 "",
             Call.auditLog "migration_rollback" job.TargetUser ctx.User true
               ("Migration rolled back for user: " ++ job.TargetUser)] := by
          simpa [RollbackMigration, hid, hjob, hgate, hr] using hx
        simp at hmem
        exact hmem.1
      | some err => simp [RollbackMigration, hid, hjob, hgate, hr] at hx

/-- Witness of C4: job 7 is stored in status `applying`. -/
theorem RollbackMigration_rejects_other_status_witness :
    RollbackMigration sourceStubs (serviceWith (sampleJob "applying" [])) adminCtx
        [("job_id", .float64 7)] =
      (errorResponse "cannot rollback job in applying status", []) :=
  ((RollbackMigration_rejects_other_status sourceStubs (serviceWith (sampleJob "applying" []))
    adminCtx [("job_id", .float64 7)] 7 (sampleJob "applying" []) rfl rfl).1
      (by decide) (by decide)).trans rfl

/-- C5, as stated, fails: job 7 is stored as `complete`, the reversal returns an error, and
`RollbackMigration` answers with a failure response without writing any status, so the job is
left in status `complete`, not `failed`. -/
theorem RollbackMigration_failed_reversal_counterexample :
    (sampleJob "complete" []).Status = "complete" ∧
    stubsRollbackFails.rollbackMigrationForUser "alice" = some "userdel: user is logged in" ∧
    RollbackMigration stubsRollbackFails (serviceWith (sampleJob "complete" [])) adminCtx
        [("job_id", .float64 7)] =
      (errorResponse "rollback failed: userdel: user is logged in",
        [Call.rollbackMigrationForUser "alice",
         Call.auditLog "migration_rollback" "alice" "admin" false
           "Rollback failed: userdel: user is logged in"]) ∧
    statusAfter 7 (sampleJob "complete" []).Status
        (RollbackMigration stubsRollbackFails (serviceWith (sampleJob "complete" [])) adminCtx
          [("job_id", .float64 7)]).2 = "complete" ∧
    statusAfter 7 (sampleJob "complete" []).Status
        (RollbackMigration stubsRollbackFails (serviceWith (sampleJob "complete" [])) adminCtx
          [("job_id", .float64 7)]).2 ≠ "failed" := by
  decide

/-- C5, amended: for a stored job in status `complete` or `failed`, `RollbackMigration` starts
the reversal for the job's target user; when the reversal returns nil it writes
`updateJobStatus(jobID, "rolled_back", 0, "")` and the job is left in status `rolled_back`; when
the reversal returns an error it returns a failure response and writes nothing to the job, so the
job keeps the status it had (never `rolled_back`). -/
theorem RollbackMigration_status_after (c : Collaborators) (ms : MigrationService)
    (ctx : ActionContext) (params : GoMap) (jobID : Int) (job : MigrationJob)
    (hid : getFloat64 params "job_id" = some jobID)
    (hjob : ms.db.migration_jobs jobID = some job)
    (hstatus : job.Status = "complete" ∨ job.Status = "failed") :
    (c.rollbackMigrationForUser job.TargetUser = none →
      Call.updateJobStatus jobID "rolled_back" 0 "" ∈ (RollbackMigration c ms ctx params).2 ∧
      statusAfter jobID job.Status (RollbackMigration c ms ctx params).2 = "rolled_back") ∧
    (∀ err, c.rollbackMigrationForUser job.TargetUser = some err →
      (RollbackMigration c ms ctx params).1 = errorResponse ("rollback failed: " ++ err) ∧
      (∀ x ∈ (RollbackMigration c ms ctx params).2, x.writesJob = false) ∧
      statusAfter jobID job.Status (RollbackMigration c ms ctx params).2 = job.Status ∧
      statusAfter jobID job.Status (RollbackMigration c ms ctx params).2 ≠ "rolled_back") := by
  have hgate : ¬ (job.Status ≠ "complete" ∧ job.Status ≠ "failed") := by
    rcases hstatus with h | h <;> simp [h]
  have hnot : job.Status ≠ "rolled_back" := by
    rcases hstatus with h | h <;> rw [h] <;> decide
  constructor
  · intro hr
    simp [RollbackMigration, hid, hjob, hgate, hr, statusAfter]
  · intro err hr
    simp [RollbackMigration, hid, hjob, hgate, hr, statusAfter, Call.writesJob, hnot]

/-- Witness of C5 (amended): job 7 is stored as `failed` and the reversal succeeds. -/
theorem RollbackMigration_status_after_witness :
    statusAfter 7 "failed"
      (RollbackMigration sourceStubs (serviceWith (sampleJob "failed" [])) adminCtx
        [("job_id", .float64 7)]).2 = "rolled_back" :=
  ((RollbackMigration_status_after sourceStubs (serviceWith (sampleJob "failed" [])) adminCtx
    [("job_id", .float64 7)] 7 (sampleJob "failed" []) rfl rfl (Or.inr rfl)).1 rfl).2

/-- C6: when `job_id` or `approval_token` is missing from the parameters (absent or of another
type), or both are present and `verifyMigrationApprovalToken` rejects the token, `ApplyMigration`
returns a failure response, and none of the calls it makes queues an apply job or writes to a job
record. -/
theorem ApplyMigration_rejection_frame (c : Collaborators) (ms : MigrationService)
    (ctx : ActionContext) (params : GoMap)
    (h : getFloat64 params "job_id" = none ∨ getString params "approval_token" = none ∨
      ∃ jobID token, getFloat64 params "job_id" = some jobID ∧
        getString params "approval_token" = some token ∧
        c.verifyMigrationApprovalToken token jobID = false) :
    (∃ msg, (ApplyMigration c ms ctx params).1 = errorResponse msg) ∧
    (∀ x ∈ (ApplyMigration c ms ctx params).2,
      x.queuesApply = false ∧ x.writesJob = false) := by
  rcases h with h | h | ⟨jobID, token, h1, h2, h3⟩
  · simp [ApplyMigration, h]
  · cases hid : getFloat64 params "job_id" <;> simp [ApplyMigration, h, hid]
  · simp [ApplyMigration, h1, h2, h3, Call.queuesApply, Call.writesJob]

/-- Witness of C6: the token issued for job 8 is presented for job 7 and rejected. -/
theorem ApplyMigration_rejection_frame_witness :
    (∃ msg, (ApplyMigration stubsJobBoundToken (serviceWith (sampleJob "planning" [])) adminCtx
        [("job_id", .float64 7), ("approval_token", .str "approve-8")]).1 = errorResponse msg) ∧
    (∀ x ∈ (ApplyMigration stubsJobBoundToken (serviceWith (sampleJob "planning" [])) adminCtx
        [("job_id", .float64 7), ("approval_token", .str "approve-8")]).2,
      x.queuesApply = false ∧ x.writesJob = false) :=
  ApplyMigration_rejection_frame stubsJobBoundToken (serviceWith (sampleJob "planning" []))
    adminCtx [("job_id", .float64 7), ("approval_token", .str "approve-8")]
    (Or.inr (Or.inr ⟨7, "approve-8", rfl, rfl, by decide⟩))

/-- C7, as stated, fails: job 7 is stored in status `complete`, not `planning`; the request
carries an accepted token, and `ApplyMigration` queues the apply job and answers `applying`. -/
theorem ApplyMigration_status_counterexample :
    (serviceWith (sampleJob "complete" [])).db.migration_jobs 7 = some (sampleJob "complete" []) ∧
    (sampleJob "complete" []).Status ≠ "planning" ∧
    ApplyMigration sourceStubs (serviceWith (sampleJob "complete" [])) adminCtx
        [("job_id", .float64 7), ("approval_token", .str "approve-7")] =
      ([("success", .bool true), ("apply_job_id", .int 1007), ("status", .str "applying"),
        ("message", .str "Migration in progress"),
        ("check_progress", .str "/api/migration/job/1007/status"),
        ("cancel_endpoint", .str "/api/migration/job/1007/cancel")],
       [Call.queueAsyncApplyJob 7 "admin",
        Call.auditLog "migration_apply" "job_7" "admin" true "Migration apply queued: 1007"]) := by
  decide

/-- C7, amended: `ApplyMigration` does not look at the stored job. When `job_id` and
`approval_token` are present and the token is accepted, it queues the apply job and answers
`success` with status `applying`, also for a job that is stored in a status other than
`planning`. -/
theorem ApplyMigration_ignores_status (c : Collaborators) (ms : MigrationService)
    (ctx : ActionContext) (params : GoMap) (jobID : Int) (token : String) (job : MigrationJob)
    (hid : getFloat64 params "job_id" = some jobID)
    (htoken : getString params "approval_token" = some token)
    (haccept : c.verifyMigrationApprovalToken token jobID = true)
    (_hjob : ms.db.migration_jobs jobID = some job)
    (_hstatus : job.Status ≠ "planning") :
    (ApplyMigration c ms ctx params).1.lookup "success" = some (.bool true) ∧
    (ApplyMigration c ms ctx params).1.lookup "status" = some (.str "applying") ∧
    (ApplyMigration c ms ctx params).2 =
      [Call.queueAsyncApplyJob jobID ctx.User,
       Call.auditLog "migration_apply" ("job_" ++ toString jobID) ctx.User true
         ("Migration apply queued: " ++ toString (c.queueAsyncApplyJob jobID ctx.User))] := by
  simp [ApplyMigration, hid, htoken, haccept, List.lookup]

/-- Witness of C7 (amended): job 7 is stored as `rolled_back`, its own token is accepted. -/
theorem ApplyMigration_ignores_status_witness :
    (ApplyMigration stubsJobBoundToken (serviceWith (sampleJob "rolled_back" [])) adminCtx
        [("job_id", .float64 7), ("approval_token", .str "approve-7")]).2 =
      [Call.queueAsyncApplyJob 7 "admin",
       Call.auditLog "migration_apply" "job_7" "admin" true "Migration apply queued: 1007"] :=
  (ApplyMigration_ignores_status stubsJobBoundToken (serviceWith (sampleJob "rolled_back" []))
    adminCtx [("job_id", .float64 7), ("approval_token", .str "approve-7")] 7 "approve-7"
    (sampleJob "rolled_back" []) rfl rfl (by decide) rfl (by decide)).2.2.trans (by decide)

/-- C8, as stated, fails: the plan of job 7 lists a conflict, the request carries nothing but
`job_id` and `approval_token` (no overwrite authorisation), and `ApplyMigration` queues the apply
job. -/
theorem ApplyMigration_conflicts_counterexample :
    (serviceWith (sampleJob "planning" ["target user already exists"])).db.migration_jobs 7 =
      some (sampleJob "planning" ["target user already exists"]) ∧
    (sampleJob "planning" ["target user already exists"]).Plan.Conflicts =
      ["target user already exists"] ∧
    List.map Prod.fst [("job_id", Value.float64 7), ("approval_token", Value.str "approve-7")] =
      ["job_id", "approval_token"] ∧
    (ApplyMigration sourceStubs (serviceWith (sampleJob "planning" ["target user already exists"]))
        adminCtx [("job_id", .float64 7), ("approval_token", .str "approve-7")]).1.lookup
      "success" = some (.bool true) ∧
    Call.queueAsyncApplyJob 7 "admin" ∈
      (ApplyMigration sourceStubs
        (serviceWith (sampleJob "planning" ["target user already exists"]))
        adminCtx [("job_id", .float64 7), ("approval_token", .str "approve-7")]).2 := by
  decide

/-- C8, amended: `ApplyMigration` reads neither the plan of the job nor any overwrite
authorisation in the request. A job whose plan has a non-empty conflicts list is queued for apply
whenever `job_id` and `approval_token` are present and the token is accepted, whatever else the
request carries. -/
theorem ApplyMigration_ignores_conflicts (c : Collaborators) (ms : MigrationService)
    (ctx : ActionContext) (params : GoMap) (jobID : Int) (token : String) (job : MigrationJob)
    (hid : getFloat64 params "job_id" = some jobID)
    (htoken : getString params "approval_token" = some token)
    (haccept : c.verifyMigrationApprovalToken token jobID = true)
    (_hjob : ms.db.migration_jobs jobID = some job)
    (_hconflicts : job.Plan.Conflicts ≠ []) :
    (ApplyMigration c ms ctx params).1.lookup "success" = some (.bool true) ∧
    Call.queueAsyncApplyJob jobID ctx.User ∈ (ApplyMigration c ms ctx params).2 := by
  simp [ApplyMigration, hid, htoken, haccept, List.lookup]

/-- Witness of C8 (amended): the plan of job 7 lists two conflicts and the request says
`overwrite_existing = false`. -/
theorem ApplyMigration_ignores_conflicts_witness :
    Call.queueAsyncApplyJob 7 "admin" ∈
      (ApplyMigration stubsJobBoundToken
        (serviceWith (sampleJob "planning" ["target user already exists", "domain taken"]))
        adminCtx
        [("job_id", .float64 7), ("approval_token", .str "approve-7"),
         ("overwrite_existing", .bool false)]).2 :=
  (ApplyMigration_ignores_conflicts stubsJobBoundToken
    (serviceWith (sampleJob "planning" ["target user already exists", "domain taken"])) adminCtx
    [("job_id", .float64 7), ("approval_token", .str "approve-7"),
     ("overwrite_existing", .bool false)] 7 "approve-7"
    (sampleJob "planning" ["target user already exists", "domain taken"]) rfl rfl (by decide) rfl
    (by decide)).2

/-! ### Analysis and validation -/

theorem parseWarnings_cons (o : String × GoError) (rest : List (String × GoError)) :
    parseWarnings (o :: rest) = parseWarnings [o] ++ parseWarnings rest := by
  cases h : o.2 <;> simp [parseWarnings, List.filterMap_cons, h]

theorem warnParsing_warnings (concern : String)
    (parse : String → MigrationPlan → GoError × MigrationPlan) (e : GoError)
    (h : ParserYields parse e) (path : String) (plan : MigrationPlan) :
    (warnParsing concern (parse path plan)).Warnings =
      plan.Warnings ++ parseWarnings [(concern, e)] := by
  obtain ⟨h1, h2⟩ := h path plan
  cases e with
  | none => simp [warnParsing, h1, h2, parseWarnings]
  | some err => simp [warnParsing, h1, h2, parseWarnings]

/-- C9: best-effort parsing. Whatever the six sub-parsers return (`e1` to `e6`, each nil or an
error), once the extraction has succeeded `analyzeBackupAsync` calls all six in the order
userdata, domain, email, database, DNS, SSL, returns a plan and no error, and the warnings of the
plan are exactly the entries "<concern> parsing: <detail>" of the sub-parsers that failed, in that
order. -/
theorem analyzeBackupAsync_best_effort (c : Collaborators) (os : OS) (ms : MigrationService)
    (backupPath targetUser : String) (unixNano backupDate : Int)
    (e1 e2 e3 e4 e5 e6 : GoError)
    (hextract : (extractBackupArchive os backupPath
      (filepath.Join ms.tmpDir ("analysis-" ++ toString unixNano))).1 = none)
    (h1 : ParserYields c.parseCPanelUserdata e1) (h2 : ParserYields c.parseCPanelDomains e2)
    (h3 : ParserYields c.parseCPanelEmail e3) (h4 : ParserYields c.parseCPanelDatabases e4)
    (h5 : ParserYields c.parseCPanelDNS e5) (h6 : ParserYields c.parseCPanelSSL e6) :
    ∃ plan,
      (analyzeBackupAsync c os ms backupPath targetUser unixNano backupDate).1 = .ok plan ∧
      plan.Warnings =
        parseWarnings [("userdata", e1), ("domain", e2), ("email", e3), ("database", e4),
          ("DNS", e5), ("SSL", e6)] ∧
      (analyzeBackupAsync c os ms backupPath targetUser unixNano backupDate).2 =
        [Call.osMkdirAll (filepath.Join ms.tmpDir ("analysis-" ++ toString unixNano))] ++
          (extractBackupArchive os backupPath
            (filepath.Join ms.tmpDir ("analysis-" ++ toString unixNano))).2 ++
          [Call.parseCPanelUserdata
             (filepath.Join (filepath.Join ms.tmpDir ("analysis-" ++ toString unixNano))
               "userdata"),
           Call.parseCPanelDomains (filepath.Join ms.tmpDir ("analysis-" ++ toString unixNano)),
           Call.parseCPanelEmail (filepath.Join ms.tmpDir ("analysis-" ++ toString unixNano)),
           Call.parseCPanelDatabases (filepath.Join ms.tmpDir ("analysis-" ++ toString unixNano)),
           Call.parseCPanelDNS (filepath.Join ms.tmpDir ("analysis-" ++ toString unixNano)),
           Call.parseCPanelSSL (filepath.Join ms.tmpDir ("analysis-" ++ toString unixNano))] ++
          [Call.osRemoveAll (filepath.Join ms.tmpDir ("analysis-" ++ toString unixNano))] := by
  have hsplit : parseWarnings [("userdata", e1), ("domain", e2), ("email", e3),
      ("database", e4), ("DNS", e5), ("SSL", e6)] =
      parseWarnings [("userdata", e1)] ++ (parseWarnings [("domain", e2)] ++
        (parseWarnings [("email", e3)] ++ (parseWarnings [("database", e4)] ++
          (parseWarnings [("DNS", e5)] ++ parseWarnings [("SSL", e6)])))) := by
    rw [parseWarnings_cons ("userdata", e1) (_ :: _), parseWarnings_cons ("domain", e2) (_ :: _),
      parseWarnings_cons ("email", e3) (_ :: _), parseWarnings_cons ("database", e4) (_ :: _),
      parseWarnings_cons ("DNS", e5) (_ :: _)]
  simp only [analyzeBackupAsync, hextract]
  refine ⟨_, rfl, ?_, trivial⟩
  rw [warnParsing_warnings "SSL" _ e6 h6, warnParsing_warnings "DNS" _ e5 h5,
    warnParsing_warnings "database" _ e4 h4, warnParsing_warnings "email" _ e3 h3,
    warnParsing_warnings "domain" _ e2 h2, warnParsing_warnings "userdata" _ e1 h1, hsplit]
  simp [List.append_assoc]

/-- Witness of C9: the email and the SSL sub-parser fail on the sample archive; the plan carries
their two warnings, in this order. -/
theorem analyzeBackupAsync_best_effort_witness :
    ∃ plan,
      (analyzeBackupAsync stubsEmailSslFail
        (osWith "/var/backups/migrations/cpmove-alice.tar.gz" { IsDir := false, Size := 4096 }
          sampleArchive)
        (serviceWith (sampleJob "pending" [])) "/var/backups/migrations/cpmove-alice.tar.gz"
        "alice" 1 0).1 = .ok plan ∧
      plan.Warnings = ["email parsing: no mail directory", "SSL parsing: bad certificate"] :=
  have h := analyzeBackupAsync_best_effort stubsEmailSslFail
    (osWith "/var/backups/migrations/cpmove-alice.tar.gz" { IsDir := false, Size := 4096 }
      sampleArchive)
    (serviceWith (sampleJob "pending" [])) "/var/backups/migrations/cpmove-alice.tar.gz"
    "alice" 1 0 none none (some "no mail directory") none none (some "bad certificate")
    (by decide) (fun _ _ => ⟨rfl, rfl⟩) (fun _ _ => ⟨rfl, rfl⟩) (fun _ _ => ⟨rfl, rfl⟩)
    (fun _ _ => ⟨rfl, rfl⟩) (fun _ _ => ⟨rfl, rfl⟩) (fun _ _ => ⟨rfl, rfl⟩)
  h.elim (fun plan hp => ⟨plan, hp.1, hp.2.1.trans (by decide)⟩)

/-- C10, as stated, fails: `/var/backups/migrations/site-backup.zip` is an absolute path without
`..` to an existing regular file of 1 KiB whose name follows no known convention; for it
`ValidateBackup` returns the error response "unknown backup format ..." (`success` false, no
`valid` and no `warning` field), not a non-fatal result. -/
theorem ValidateBackup_unknown_format_counterexample :
    detectBackupFormat "/var/backups/migrations/site-backup.zip" = "" ∧
    ValidateBackup sourceStubs
        (osWith "/var/backups/migrations/site-backup.zip" { IsDir := false, Size := 1024 }
          sampleArchive)
        (serviceWith (sampleJob "pending" [])) adminCtx
        (backupParams "/var/backups/migrations/site-backup.zip" "alice") =
      ([("success", .bool false),
        ("error", .str "unknown backup format (supported: cpmove-*.tar.gz, cpmove-*.tar)")],
       [Call.auditLog "migration_validate" "alice" "admin" false "Unknown backup format"]) ∧
    (ValidateBackup sourceStubs
        (osWith "/var/backups/migrations/site-backup.zip" { IsDir := false, Size := 1024 }
          sampleArchive)
        (serviceWith (sampleJob "pending" [])) adminCtx
        (backupParams "/var/backups/migrations/site-backup.zip" "alice")).1.lookup "success" ≠
      some (.bool true) := by
  decide

/-- C10, amended: for every backup path that passes the input checks (both parameters present,
no `..` in the path, absolute path, valid user name) and the file checks (the file exists, is not
a directory and is at most 500 GiB) but whose file name matches no known convention,
`ValidateBackup` records "Unknown backup format" in the audit log and returns the error response
"unknown backup format (supported: cpmove-*.tar.gz, cpmove-*.tar)", with `success` false. -/
theorem ValidateBackup_unknown_format (c : Collaborators) (os : OS) (ms : MigrationService)
    (ctx : ActionContext) (params : GoMap) (backupPath targetUser : String) (info : FileInfo)
    (hpath : getString params "backup_path" = some backupPath)
    (huser : getString params "target_user" = some targetUser)
    (hdots : strings.Contains backupPath ".." = false)
    (habs : filepath.IsAbs backupPath = true)
    (hname : matchesUsername targetUser = true)
    (hstat : os.Stat backupPath = .ok info)
    (hfile : info.IsDir = false)
    (hsize : info.Size ≤ 500 * 1024 * 1024 * 1024)
    (hformat : detectBackupFormat backupPath = "") :
    ValidateBackup c os ms ctx params =
      (errorResponse "unknown backup format (supported: cpmove-*.tar.gz, cpmove-*.tar)",
       [Call.auditLog "migration_validate" targetUser ctx.User false "Unknown backup format"]) ∧
    (ValidateBackup c os ms ctx params).1.lookup "success" = some (.bool false) := by
  have hp : backupPath ≠ "" := by
    intro h
    rw [h] at habs
    exact absurd habs (by decide)
  have hu : targetUser ≠ "" := by
    intro h
    rw [h] at hname
    exact absurd hname (by decide)
  have hs : info.Size ≤ 536870912000 := by simpa using hsize
  have hv : ValidateBackup c os ms ctx params =
      (errorResponse "unknown backup format (supported: cpmove-*.tar.gz, cpmove-*.tar)",
       [Call.auditLog "migration_validate" targetUser ctx.User false
         "Unknown backup format"]) := by
    simp [ValidateBackup, hpath, huser, hp, hu, hdots, habs, hname, hstat, hfile, hs, hformat]
  exact ⟨hv, by rw [hv]; rfl⟩

/-- Witness of C10 (amended): the backup `/srv/export/account.zip` for user `bob`. -/
theorem ValidateBackup_unknown_format_witness :
    ValidateBackup sourceStubs
        (osWith "/srv/export/account.zip" { IsDir := false, Size := 2048 } sampleArchive)
        (serviceWith (sampleJob "pending" [])) adminCtx
        (backupParams "/srv/export/account.zip" "bob") =
      (errorResponse "unknown backup format (supported: cpmove-*.tar.gz, cpmove-*.tar)",
       [Call.auditLog "migration_validate" "bob" "admin" false "Unknown backup format"]) :=
  (ValidateBackup_unknown_format sourceStubs
    (osWith "/srv/export/account.zip" { IsDir := false, Size := 2048 } sampleArchive)
    (serviceWith (sampleJob "pending" [])) adminCtx
    (backupParams "/srv/export/account.zip" "bob") "/srv/export/account.zip" "bob"
    { IsDir := false, Size := 2048 } rfl rfl (by decide) (by decide) (by decide) rfl rfl
    (by decide) (by decide)).1

/-! ### Format detection -/

theorem takeWhile_until_sep (r rest : List Char) (hr : ∀ c ∈ r, c ≠ '/')
    (hrest : rest = [] ∨ ∃ t, rest = '/' :: t) :
    (r ++ rest).takeWhile (fun c => c ≠ '/') = r := by
  rw [List.takeWhile_append_of_pos (fun c hc => by simpa using hr c hc)]
  rcases hrest with h | ⟨t, h⟩ <;> simp [h]

/-- The base name of a path that ends in a non-empty name without separator, after nothing or
after a separator, is that name. -/
theorem base_of_last_name (pre name : List Char) (hne : name ≠ []) (hsep : '/' ∉ name)
    (hpre : pre = [] ∨ ∃ d, pre = d ++ ['/']) :
    filepath.Base ⟨pre ++ name⟩ = ⟨name⟩ := by
  have hpath : (⟨pre ++ name⟩ : String) ≠ "" := by
    intro h
    have hd := congrArg String.data h
    simp at hd
    exact hne hd.2
  have hrev : (pre ++ name).reverse = name.reverse ++ pre.reverse := List.reverse_append _ _
  have hr : ∀ c ∈ name.reverse, c ≠ '/' := by
    intro c hc h
    rw [h] at hc
    exact hsep (List.mem_reverse.1 hc)
  have hdrop : ((pre ++ name).reverse.dropWhile (fun c => c = '/')).reverse = pre ++ name := by
    rw [hrev]
    cases hn : name.reverse with
    | nil => exact absurd (List.reverse_eq_nil_iff.1 hn) hne
    | cons c cs =>
      have hc : c ≠ '/' := hr c (by simp [hn])
      rw [List.cons_append, List.dropWhile_cons_of_neg (by simpa using hc), ← List.cons_append,
        ← hn, ← hrev, List.reverse_reverse]
  have hrest : pre.reverse = [] ∨ ∃ t, pre.reverse = '/' :: t := by
    rcases hpre with h | ⟨d, h⟩
    · exact Or.inl (by simp [h])
    · exact Or.inr ⟨d.reverse, by simp [h]⟩
  have htake : ((pre ++ name).reverse.takeWhile (fun c => c ≠ '/')).reverse = name := by
    rw [hrev, takeWhile_until_sep _ _ hr hrest, List.reverse_reverse]
  simp only [filepath.Base, hpath, if_false, hdrop, htake, hne]

/-- A name cannot end in `.tar` and in `.tar.gz`. -/
theorem not_targz_of_tar (b : String) (h : strings.HasSuffix b ".tar" = true) :
    strings.HasSuffix b ".tar.gz" = false := by
  have h1 : ".tar".data <:+ b.data := by simpa [strings.HasSuffix] using h
  cases h2 : strings.HasSuffix b ".tar.gz" with
  | false => rfl
  | true =>
    exfalso
    have h3 : ".tar.gz".data <:+ b.data := by simpa [strings.HasSuffix] using h2
    obtain ⟨u, hu⟩ := h1
    obtain ⟨v, hv⟩ := h3
    have hl := congrArg List.getLast? (hu.trans hv.symm)
    have e1 : ".tar".data = ['.', 't', 'a'] ++ ['r'] := rfl
    have e2 : ".tar.gz".data = ['.', 't', 'a', 'r', '.', 'g'] ++ ['z'] := rfl
    rw [e1, e2, ← List.append_assoc, ← List.append_assoc, List.getLast?_append,
      List.getLast?_append] at hl
    simp at hl

/-- A name that starts with `cpbackup-` does not start with `cpmove-`. -/
theorem not_cpmove_of_cpbackup (b : String) (h : strings.HasPrefix b "cpbackup-" = true) :
    strings.HasPrefix b "cpmove-" = false := by
  have h1 : "cpbackup-".data <+: b.data := by simpa [strings.HasPrefix] using h
  cases h2 : strings.HasPrefix b "cpmove-" with
  | false => rfl
  | true =>
    exfalso
    have h3 : "cpmove-".data <+: b.data := by simpa [strings.HasPrefix] using h2
    obtain ⟨u, hu⟩ := h1
    obtain ⟨v, hv⟩ := h3
    have hl := congrArg (fun l => l.get? 2) (hu.trans hv.symm)
    have e1 : "cpbackup-".data = 'c' :: 'p' :: 'b' :: "ackup-".data := rfl
    have e2 : "cpmove-".data = 'c' :: 'p' :: 'm' :: "ove-".data := rfl
    rw [e1, e2] at hl
    simp at hl

/-- C11: `detectBackupFormat` depends only on the base name of the path. With `b` the base
name, it returns `cpmove-tar.gz` when `b` starts with `cpmove-` and ends with `.tar.gz`,
`cpmove-tar` when `b` starts with `cpmove-` and ends with `.tar`, `cpbackup` when `b` starts with
`cpbackup-`, and the empty tag in every other case. Whatever directory a name is put under, also
one named like a backup, the result is that of the name alone. -/
theorem detectBackupFormat_by_base_name (path : String) :
    (∀ other, filepath.Base other = filepath.Base path →
      detectBackupFormat other = detectBackupFormat path) ∧
    (strings.HasPrefix (filepath.Base path) "cpmove-" = true →
      strings.HasSuffix (filepath.Base path) ".tar.gz" = true →
      detectBackupFormat path = "cpmove-tar.gz") ∧
    (strings.HasPrefix (filepath.Base path) "cpmove-" = true →
      strings.HasSuffix (filepath.Base path) ".tar" = true →
      detectBackupFormat path = "cpmove-tar") ∧
    (strings.HasPrefix (filepath.Base path) "cpbackup-" = true →
      detectBackupFormat path = "cpbackup") ∧
    (¬ (strings.HasPrefix (filepath.Base path) "cpmove-" = true ∧
          strings.HasSuffix (filepath.Base path) ".tar.gz" = true) →
      ¬ (strings.HasPrefix (filepath.Base path) "cpmove-" = true ∧
          strings.HasSuffix (filepath.Base path) ".tar" = true) →
      ¬ strings.HasPrefix (filepath.Base path) "cpbackup-" = true →
      detectBackupFormat path = "") ∧
    (∀ dir name : String, name ≠ "" → '/' ∉ name.data →
      detectBackupFormat (dir ++ "/" ++ name) = detectBackupFormat name) := by
  refine ⟨?_, ?_, ?_, ?_, ?_, ?_⟩
  · intro other h
    simp only [detectBackupFormat, h]
  · intro h1 h2
    simp [detectBackupFormat, h1, h2]
  · intro h1 h2
    simp [detectBackupFormat, h1, h2, not_targz_of_tar _ h2]
  · intro h
    simp [detectBackupFormat, h, not_cpmove_of_cpbackup _ h]
  · intro h1 h2 h3
    simp only [detectBackupFormat]
    rw [if_neg (by simpa using h1), if_neg (by simpa using h2), if_neg h3]
  · intro dir name hne hsep
    have hdata : name.data ≠ [] := fun h => hne (String.ext h)
    have h1 : filepath.Base (dir ++ "/" ++ name) = name := by
      have hs : dir ++ "/" ++ name = ⟨dir.data ++ ['/'] ++ name.data⟩ :=
        String.ext (by simp [String.data_append])
      rw [hs]
      exact base_of_last_name (dir.data ++ ['/']) name.data hdata hsep (Or.inr ⟨_, rfl⟩)
    have h2 : filepath.Base name = name :=
      base_of_last_name [] name.data hdata hsep (Or.inl rfl)
    simp only [detectBackupFormat, h1, h2]

/-- Witness of C11: the name `cpbackup-7` below a directory named `cpmove-old.tar.gz`. -/
theorem detectBackupFormat_by_base_name_witness :
    detectBackupFormat ("/srv/cpmove-old.tar.gz" ++ "/" ++ "cpbackup-7") = "cpbackup" :=
  ((detectBackupFormat_by_base_name "cpbackup-7").2.2.2.2.2 "/srv/cpmove-old.tar.gz"
    "cpbackup-7" (by decide) (by decide)).trans
    ((detectBackupFormat_by_base_name "cpbackup-7").2.2.2.1 (by decide))

/-! ### Input checks of `ValidateBackup` -/

theorem insufficient_not_inputError (a b : String) :
    "insufficient disk space (need " ++ a ++ " GB, have " ++ b ++ " GB)" ∉ inputErrors := by
  intro hmem
  have hpre : strings.HasPrefix
      ("insufficient disk space (need " ++ a ++ " GB, have " ++ b ++ " GB)") "ins" = true := by
    have e : "insufficient disk space (need ".data =
        'i' :: 'n' :: 's' :: "ufficient disk space (need ".data := rfl
    have e2 : "ins".data = ['i', 'n', 's'] := rfl
    simp [strings.HasPrefix, String.data_append, e, e2, List.isPrefixOf]
  have hall : ∀ msg ∈ inputErrors, strings.HasPrefix msg "ins" = false := by decide
  rw [hall _ hmem] at hpre
  exact absurd hpre (by decide)

/-- A response with `success` true, or an error response whose message is not an input error, is
not an input-error response. -/
theorem ne_inputError_response (resp : GoMap) (msg : String) (hmsg : msg ∈ inputErrors)
    (h : resp.lookup "success" = some (.bool true) ∨
      ∃ m, resp = errorResponse m ∧ m ∉ inputErrors) :
    resp ≠ errorResponse msg := by
  intro heq
  rcases h with h | ⟨m, hm, hnot⟩
  · rw [heq] at h
    simp [errorResponse, List.lookup] at h
  · rw [hm] at heq
    have : m = msg := by simpa [errorResponse] using heq
    exact hnot (this ▸ hmsg)

/-- C12: `ValidateBackup` rejects every request whose `backup_path` is missing, empty, not
absolute or contains `..` and every request whose `target_user` is missing or not a name of 1 to
32 characters from `a-z`, `0-9`, `_`, `-`: it answers with one of the four input-error messages,
and response and calls are the same whatever the file system, the database and the collaborators
are, so nothing of them is consulted. Every other request passes the input checks: for no
environment does it get an input-error response. -/
theorem ValidateBackup_input_checks (ctx : ActionContext) (params : GoMap) :
    (BadValidateInput params →
      ∃ msg ∈ inputErrors, ∃ calls, ∀ (c : Collaborators) (os : OS) (ms : MigrationService),
        ValidateBackup c os ms ctx params = (errorResponse msg, calls)) ∧
    (¬ BadValidateInput params →
      ∀ (c : Collaborators) (os : OS) (ms : MigrationService), ∀ msg ∈ inputErrors,
        (ValidateBackup c os ms ctx params).1 ≠ errorResponse msg) := by
  constructor
  · intro hbad
    cases hp : getString params "backup_path" with
    | none =>
      exact ⟨"backup_path parameter required", by simp [inputErrors], [],
        fun c os ms => by simp [ValidateBackup, hp]⟩
    | some backupPath =>
      by_cases hpe : backupPath = ""
      · exact ⟨"backup_path parameter required", by simp [inputErrors], [],
          fun c os ms => by simp [ValidateBackup, hp, hpe]⟩
      cases hu : getString params "target_user" with
      | none =>
        exact ⟨"target_user parameter required", by simp [inputErrors], [],
          fun c os ms => by simp [ValidateBackup, hp, hpe, hu]⟩
      | some targetUser =>
        by_cases hue : targetUser = ""
        · exact ⟨"target_user parameter required", by simp [inputErrors], [],
            fun c os ms => by simp [ValidateBackup, hp, hpe, hu, hue]⟩
        by_cases hpath : strings.Contains backupPath ".." = true ∨
            filepath.IsAbs backupPath = false
        · exact ⟨"invalid backup path", by simp [inputErrors],
            [Call.auditLog "migration_validate" targetUser ctx.User false
              "Path traversal attempt in backup_path"],
            fun c os ms => by
              rcases hpath with h | h <;> simp [ValidateBackup, hp, hpe, hu, hue, h]⟩
        push_neg at hpath
        have h1 : strings.Contains backupPath ".." = false := by simpa using hpath.1
        have h2 : filepath.IsAbs backupPath = true := by simpa using hpath.2
        by_cases hname : matchesUsername targetUser = true
        · exfalso
          rcases hbad with h | h | ⟨q, hq, h⟩ | h | ⟨v, hv, h⟩
          · simp [hp] at h
          · simp [hp, hpe] at h
          · rw [hp] at hq
            cases hq
            rcases h with h | h
            · simp [h2] at h
            · simp [h1] at h
          · simp [hu] at h
          · rw [hu] at hv
            cases hv
            simp [hname] at h
        · exact ⟨"invalid target username", by simp [inputErrors], [],
            fun c os ms => by simp [ValidateBackup, hp, hpe, hu, hue, h1, h2, hname]⟩
  · intro hgood c os ms msg hmsg
    simp only [BadValidateInput, not_or, not_exists, not_and] at hgood
    obtain ⟨g1, g2, g3, g4, g5⟩ := hgood
    cases hp : getString params "backup_path" with
    | none => exact absurd hp g1
    | some backupPath =>
      cases hu : getString params "target_user" with
      | none => exact absurd hu g4
      | some targetUser =>
        have hpe : backupPath ≠ "" := fun h => g2 (h ▸ hp)
        have h1 : strings.Contains backupPath ".." = false := by
          simpa using (g3 backupPath hp).2
        have h2 : filepath.IsAbs backupPath = true := by
          simpa using (g3 backupPath hp).1
        have hname : matchesUsername targetUser = true := by
          simpa using g5 targetUser hu
        have hue : targetUser ≠ "" := by
          intro h
          rw [h] at hname
          exact absurd hname (by decide)
        simp only [ValidateBackup, hp, hu, hpe, hue, h1, h2, hname, if_false, Bool.not_true,
          Bool.or_self, Bool.false_eq_true]
        apply ne_inputError_response _ _ hmsg
        repeat' split
        all_goals first
          | exact Or.inl rfl
          | exact Or.inr ⟨_, rfl, by decide⟩
          | exact Or.inr ⟨_, rfl, insufficient_not_inputError _ _⟩

/-- Witness of C12: a relative `backup_path` is rejected with "invalid backup path", whatever the
environment. -/
theorem ValidateBackup_input_checks_witness :
    ∃ msg ∈ inputErrors, ∃ calls, ∀ (c : Collaborators) (os : OS) (ms : MigrationService),
      ValidateBackup c os ms adminCtx (backupParams "backups/cpmove-alice.tar.gz" "alice") =
        (errorResponse msg, calls) :=
  (ValidateBackup_input_checks adminCtx (backupParams "backups/cpmove-alice.tar.gz" "alice")).1
    (Or.inr (Or.inr (Or.inl ⟨"backups/cpmove-alice.tar.gz", rfl, Or.inl (by decide)⟩)))

/-- C13, evaluated: `AnalyzeBackup` receives a relative `backup_path` with `..` and a
`target_user` that is no valid user name; it queues the analysis job and answers `success`,
where `ValidateBackup` rejects the same parameters with "invalid backup path". -/
theorem AnalyzeBackup_queues_unvalidated_input :
    strings.Contains "../../etc/shadow" ".." = true ∧
    filepath.IsAbs "../../etc/shadow" = false ∧
    matchesUsername "Root; rm -rf /" = false ∧
    AnalyzeBackup sourceStubs (serviceWith (sampleJob "pending" [])) adminCtx
        (backupParams "../../etc/shadow" "Root; rm -rf /") =
      ([("success", .bool true), ("job_id", .int 1), ("status", .str "analyzing"),
        ("message", .str "Backup analysis in progress")],
       [Call.queueAnalysisJob "../../etc/shadow" "Root; rm -rf /" "admin",
        Call.auditLog "migration_analyze" "Root; rm -rf /" "admin" true
          "Analysis job queued: 1"]) ∧
    (ValidateBackup sourceStubs (osWithBackup 4096) (serviceWith (sampleJob "pending" []))
        adminCtx (backupParams "../../etc/shadow" "Root; rm -rf /")).1 =
      errorResponse "invalid backup path" := by
  decide

/-! ### Disk space -/

theorem ValidateBackup_insufficient (c : Collaborators) (os : OS) (ms : MigrationService)
    (ctx : ActionContext) (params : GoMap) (backupPath targetUser : String)
    (fileSize diskSpace : Int)
    (h : ReachesDiskCheck c os ms params backupPath targetUser fileSize diskSpace)
    (hless : diskSpace < fileSize * 2) :
    ValidateBackup c os ms ctx params =
      (errorResponse (insufficientSpaceMessage fileSize diskSpace),
       [Call.auditLog "migration_validate" targetUser ctx.User false
         ("Insufficient disk space: " ++ toString diskSpace ++ " available, " ++
           toString (fileSize * 2) ++ " required")]) := by
  obtain ⟨hp, hu, h1, h2, hname, hstat, _, hsize, hformat, ⟨file, header, hopen, hread, hgz⟩,
    hscan, hdisk⟩ := h
  have hpe : backupPath ≠ "" := by
    intro e
    rw [e] at h2
    exact absurd h2 (by decide)
  have hue : targetUser ≠ "" := by
    intro e
    rw [e] at hname
    exact absurd hname (by decide)
  have hheader : (strings.HasSuffix backupPath ".gz" &&
      (decide (header.getD 0 0 ≠ 31) || decide (header.getD 1 0 ≠ 139))) = false := by
    cases hsuf : strings.HasSuffix backupPath ".gz" with
    | false => simp
    | true =>
      obtain ⟨g0, g1⟩ := hgz hsuf
      simp at g0 g1
      simp [g0, g1]
  have huser : (ms.db.scanUserId targetUser).isNone = false := by
    cases hsc : ms.db.scanUserId targetUser with
    | none => exact absurd hsc hscan
    | some e => rfl
  simp only [ValidateBackup, hp, hu, hpe, hue, h1, h2, hname, hstat, hformat, hopen, hread,
    hheader, huser, hdisk]
  simp only [if_false, if_true, Bool.not_true, Bool.or_self, Bool.false_eq_true, gt_iff_lt,
    not_lt.2 hsize, hless, insufficientSpaceMessage]

theorem ValidateBackup_enough_space (c : Collaborators) (os : OS) (ms : MigrationService)
    (ctx : ActionContext) (params : GoMap) (backupPath targetUser : String)
    (fileSize diskSpace : Int)
    (h : ReachesDiskCheck c os ms params backupPath targetUser fileSize diskSpace)
    (henough : ¬ diskSpace < fileSize * 2) :
    (ValidateBackup c os ms ctx params).1.lookup "success" = some (.bool true) := by
  obtain ⟨hp, hu, h1, h2, hname, hstat, _, hsize, hformat, ⟨file, header, hopen, hread, hgz⟩,
    hscan, hdisk⟩ := h
  have hpe : backupPath ≠ "" := by
    intro e
    rw [e] at h2
    exact absurd h2 (by decide)
  have hue : targetUser ≠ "" := by
    intro e
    rw [e] at hname
    exact absurd hname (by decide)
  have hheader : (strings.HasSuffix backupPath ".gz" &&
      (decide (header.getD 0 0 ≠ 31) || decide (header.getD 1 0 ≠ 139))) = false := by
    cases hsuf : strings.HasSuffix backupPath ".gz" with
    | false => simp
    | true =>
      obtain ⟨g0, g1⟩ := hgz hsuf
      simp at g0 g1
      simp [g0, g1]
  have huser : (ms.db.scanUserId targetUser).isNone = false := by
    cases hsc : ms.db.scanUserId targetUser with
    | none => exact absurd hsc hscan
    | some e => rfl
  have hge : fileSize * 2 ≤ diskSpace := not_lt.1 henough
  simp only [ValidateBackup, hp, hu, hpe, hue, h1, h2, hname, hstat, hformat, hopen, hread,
    hheader, huser, hdisk]
  simp only [if_false, Bool.not_true, Bool.or_self, Bool.false_eq_true, gt_iff_lt,
    not_lt.2 hsize, not_lt.2 hge]
  split <;> rfl

/-- The sample request for the sample backup of `fileSize` bytes, with `diskSpace` bytes
available and no user `alice` yet, reaches the disk-space check. -/
theorem sample_reaches_disk_check (fileSize diskSpace : Int) (hnonneg : 0 ≤ fileSize)
    (hsize : fileSize ≤ 500 * 1024 * 1024 * 1024) :
    ReachesDiskCheck (stubsWithDiskSpace diskSpace) (osWithBackup fileSize)
      (serviceWith (sampleJob "pending" [])) (backupParams sampleBackupPath "alice")
      sampleBackupPath "alice" fileSize diskSpace :=
  ⟨rfl, rfl, by decide, by decide, by decide, by simp [osWithBackup, osWith], hnonneg, hsize,
    by decide,
    ⟨sampleArchive, [0x1f, 0x8b], by simp [osWithBackup, osWith], rfl, fun _ => ⟨rfl, rfl⟩⟩,
    by decide, rfl⟩

/-- C14: when all earlier checks pass and the target user does not exist, `ValidateBackup`
returns the insufficient-disk-space error exactly when the space available at the home root is
less than twice the size of the backup file, and it returns a failure response exactly then; with
exactly twice the size available the response has `success` true. -/
theorem ValidateBackup_disk_threshold (c : Collaborators) (os : OS) (ms : MigrationService)
    (ctx : ActionContext) (params : GoMap) (backupPath targetUser : String)
    (fileSize diskSpace : Int)
    (h : ReachesDiskCheck c os ms params backupPath targetUser fileSize diskSpace) :
    ((ValidateBackup c os ms ctx params).1 =
        errorResponse (insufficientSpaceMessage fileSize diskSpace) ↔
      diskSpace < 2 * fileSize) ∧
    ((ValidateBackup c os ms ctx params).1.lookup "success" = some (.bool false) ↔
      diskSpace < 2 * fileSize) ∧
    (diskSpace = 2 * fileSize →
      (ValidateBackup c os ms ctx params).1.lookup "success" = some (.bool true)) := by
  have hcomm : fileSize * 2 = 2 * fileSize := mul_comm _ _
  by_cases hless : diskSpace < fileSize * 2
  · have hv := ValidateBackup_insufficient c os ms ctx params backupPath targetUser fileSize
      diskSpace h hless
    have hless2 : diskSpace < 2 * fileSize := hcomm ▸ hless
    refine ⟨⟨fun _ => hless2, fun _ => by rw [hv]⟩,
      ⟨fun _ => hless2, fun _ => by rw [hv]; rfl⟩,
      fun heq => absurd hless2 (by rw [heq]; exact lt_irrefl _)⟩
  · have hv := ValidateBackup_enough_space c os ms ctx params backupPath targetUser fileSize
      diskSpace h hless
    have hnot : ¬ diskSpace < 2 * fileSize := hcomm ▸ hless
    refine ⟨⟨fun he => ?_, fun hl => absurd hl hnot⟩,
      ⟨fun he => ?_, fun hl => absurd hl hnot⟩, fun _ => hv⟩
    · rw [he] at hv
      simp [errorResponse, List.lookup] at hv
    · rw [he] at hv
      simp at hv

/-- Witness of C14: a backup of 1000 bytes with exactly 2000 bytes available passes the
disk-space check. -/
theorem ValidateBackup_disk_threshold_witness :
    (ValidateBackup (stubsWithDiskSpace 2000) (osWithBackup 1000)
      (serviceWith (sampleJob "pending" [])) adminCtx
      (backupParams sampleBackupPath "alice")).1.lookup "success" = some (.bool true) :=
  (ValidateBackup_disk_threshold (stubsWithDiskSpace 2000) (osWithBackup 1000)
    (serviceWith (sampleJob "pending" [])) adminCtx (backupParams sampleBackupPath "alice")
    sampleBackupPath "alice" 1000 2000
    (sample_reaches_disk_check 1000 2000 (by decide) (by decide))).2.2
    (by decide)

/-- C15, as stated, fails: for a backup of 1000 bytes with 1500 bytes available the response is
"insufficient disk space (need 0 GB, have 0 GB)"; it carries neither the 2000 bytes required nor
the 1500 bytes available. -/
theorem ValidateBackup_space_figures_counterexample :
    (1500 : Int) < 2 * 1000 ∧
    (ValidateBackup (stubsWithDiskSpace 1500) (osWithBackup 1000)
      (serviceWith (sampleJob "pending" [])) adminCtx
      (backupParams sampleBackupPath "alice")).1 =
      errorResponse "insufficient disk space (need 0 GB, have 0 GB)" ∧
    strings.Contains "insufficient disk space (need 0 GB, have 0 GB)" "2000" = false ∧
    strings.Contains "insufficient disk space (need 0 GB, have 0 GB)" "1500" = false := by
  decide

/-- C15, amended: the insufficient-space response of `ValidateBackup` reports the required and
the available space in whole GiB, rounded down: for every backup size s and available space
a < 2s the message is "insufficient disk space (need <2s div 2^30> GB, have <a div 2^30> GB)",
and the byte counts a and 2s go to the audit log. For a 100 GiB backup with 150 GiB free the
message is "insufficient disk space (need 200 GB, have 150 GB)". -/
theorem ValidateBackup_space_figures (c : Collaborators) (os : OS) (ms : MigrationService)
    (ctx : ActionContext) (params : GoMap) (backupPath targetUser : String)
    (fileSize diskSpace : Int)
    (h : ReachesDiskCheck c os ms params backupPath targetUser fileSize diskSpace)
    (hless : diskSpace < 2 * fileSize) :
    ValidateBackup c os ms ctx params =
      (errorResponse
        ("insufficient disk space (need " ++
          toString ((2 * fileSize).tdiv (1024 * 1024 * 1024)) ++ " GB, have " ++
          toString (diskSpace.tdiv (1024 * 1024 * 1024)) ++ " GB)"),
       [Call.auditLog "migration_validate" targetUser ctx.User false
         ("Insufficient disk space: " ++ toString diskSpace ++ " available, " ++
           toString (2 * fileSize) ++ " required")]) ∧
    (fileSize = 100 * 1024 * 1024 * 1024 → diskSpace = 150 * 1024 * 1024 * 1024 →
      (ValidateBackup c os ms ctx params).1 =
        errorResponse "insufficient disk space (need 200 GB, have 150 GB)") := by
  have hcomm : 2 * fileSize = fileSize * 2 := mul_comm _ _
  have hv := ValidateBackup_insufficient c os ms ctx params backupPath targetUser fileSize
    diskSpace h (hcomm ▸ hless)
  constructor
  · rw [hv, hcomm]
    rfl
  · intro hs hd
    rw [hv, hs, hd]
    show errorResponse
      (insufficientSpaceMessage (100 * 1024 * 1024 * 1024) (150 * 1024 * 1024 * 1024)) = _
    decide

/-- Witness of C15 (amended): a backup of 100 GiB with 150 GiB available. -/
theorem ValidateBackup_space_figures_witness :
    (ValidateBackup (stubsWithDiskSpace (150 * 1024 * 1024 * 1024))
      (osWithBackup (100 * 1024 * 1024 * 1024)) (serviceWith (sampleJob "pending" [])) adminCtx
      (backupParams sampleBackupPath "alice")).1 =
      errorResponse "insufficient disk space (need 200 GB, have 150 GB)" :=
  (ValidateBackup_space_figures (stubsWithDiskSpace (150 * 1024 * 1024 * 1024))
    (osWithBackup (100 * 1024 * 1024 * 1024)) (serviceWith (sampleJob "pending" [])) adminCtx
    (backupParams sampleBackupPath "alice") sampleBackupPath "alice"
    (100 * 1024 * 1024 * 1024) (150 * 1024 * 1024 * 1024)
    (sample_reaches_disk_check _ _ (by decide) (by decide)) (by decide)).2 rfl rfl

/-! ### Existing user, selective restore -/

/-- Where the scan of the user query never returns nil, no request gets the existing-user
warning from `ValidateBackup`. -/
theorem ValidateBackup_no_existing_user_warning (c : Collaborators) (os : OS)
    (ms : MigrationService) (ctx : ActionContext) (params : GoMap)
    (hscan : ∀ u, ms.db.scanUserId u ≠ none) :
    (ValidateBackup c os ms ctx params).1 ≠ existingUserWarning := by
  have hnone : ∀ u, (ms.db.scanUserId u).isNone = false := by
    intro u
    cases h : ms.db.scanUserId u with
    | none => exact absurd h (hscan u)
    | some _ => rfl
  have hservices : ∀ t : String, ("Required services not running: " ++ t) ≠
      "Target user already exists. Set overwrite_existing=true to replace." := by
    intro t h
    have := congrArg (fun s : String => s.data.head?) h
    simp [String.data_append] at this
  have key : ∀ resp : GoMap,
      resp.lookup "warning" ≠ some (.str
        "Target user already exists. Set overwrite_existing=true to replace.") →
      resp ≠ existingUserWarning := by
    intro resp h h'
    rw [h'] at h
    exact h (by decide)
  apply key
  cases hp : getString params "backup_path" with
  | none => simp [ValidateBackup, hp, errorResponse, List.lookup]
  | some backupPath =>
    by_cases hpe : backupPath = ""
    · simp [ValidateBackup, hp, hpe, errorResponse, List.lookup]
    cases hu : getString params "target_user" with
    | none => simp [ValidateBackup, hp, hpe, hu, errorResponse, List.lookup]
    | some targetUser =>
      by_cases hue : targetUser = ""
      · simp [ValidateBackup, hp, hpe, hu, hue, errorResponse, List.lookup]
      simp only [ValidateBackup, hp, hpe, hu, hue, hnone, Bool.false_eq_true, if_false]
      repeat' split
      all_goals first
        | (simp [errorResponse, List.lookup]; done)
        | (simp only [List.lookup]
           intro h
           simp at h
           exact hservices _ h)

/-- C16, evaluated: the user `alice` exists and the request does not set `overwrite_existing`.
The scan of the user query into `nil` returns an error whether or not a row is found, so
`existingUser` stays false: `ValidateBackup` goes on to the remaining checks and answers
`valid` true, not the existing-user warning. The request with the flag gets the same answer, and
no request for a user of the table, whatever the environment, gets the warning. -/
theorem ValidateBackup_existing_user_valid :
    (∀ row, sql.scanNil row ≠ none) ∧
    (serviceWithUser (sampleJob "pending" []) "alice").db.scanUserId "alice" =
      some "sql: Scan error on column index 0, name \x22id\x22: destination not a pointer" ∧
    ValidateBackup sourceStubs (osWithBackup 4096)
        (serviceWithUser (sampleJob "pending" []) "alice") adminCtx
        (backupParams sampleBackupPath "alice") =
      ([("success", .bool true), ("valid", .bool true),
        ("backup_path", .str "/var/backups/migrations/cpmove-alice.tar.gz"),
        ("backup_format", .str "cpmove-tar.gz"), ("backup_size", .int 4096),
        ("target_user", .str "alice"), ("disk_available", .int 1073741824000),
        ("message", .str "Backup is valid and ready for migration")],
       [Call.auditLog "migration_validate" "alice" "admin" true
          "Validation passed: format=cpmove-tar.gz, size=4096 bytes"]) ∧
    ValidateBackup sourceStubs (osWithBackup 4096)
        (serviceWithUser (sampleJob "pending" []) "alice") adminCtx
        (backupParams sampleBackupPath "alice" ++ [("overwrite_existing", .bool true)]) =
      ValidateBackup sourceStubs (osWithBackup 4096)
        (serviceWithUser (sampleJob "pending" []) "alice") adminCtx
        (backupParams sampleBackupPath "alice") ∧
    (∀ (c : Collaborators) (os : OS) (ctx : ActionContext) (params : GoMap) (job : MigrationJob)
        (user : String),
      (ValidateBackup c os (serviceWithUser job user) ctx params).1 ≠ existingUserWarning) := by
  have hscan : ∀ row, sql.scanNil row ≠ none := fun row => by cases row <;> simp [sql.scanNil]
  refine ⟨hscan, by decide, by decide, by decide, ?_⟩
  intro c os ctx params job user
  exact ValidateBackup_no_existing_user_warning c os _ ctx params (fun u => hscan _)

/-- C17, evaluated: `SelectiveRestore` with mode `overwrite` and no confirmation token of any
kind in the request returns normally with `success` true and the message "Selective restore job
queued". -/
theorem SelectiveRestore_overwrite_unconfirmed :
    SelectiveRestore (serviceWith (sampleJob "complete" [])) adminCtx
        [("backup_path", .str sampleBackupPath), ("target_user", .str "alice"),
         ("mode", .str "overwrite"), ("components", .obj [("databases", .bool true)])] =
      .ok ([("success", .bool true), ("message", .str "Selective restore job queued")],
        [Call.auditLog "migration_selective_restore" "" "admin" true
          "Selective restore queued: mode=overwrite, components=map[databases:true]"]) := by
  rfl

/-! ### The job record after a failed step -/

/-- C18, as stated, fails: step 4 (restore databases) of the run for job 7 fails; afterwards the
`current_step` of the job is what it was before the run (empty), not the name of the step. The
name is found at the head of the error message only. -/
theorem applyMigrationAsync_current_step_counterexample :
    (sampleJob "applying" []).CurrentStep = "" ∧
    (ApplyStep.nth 3).failureName = "database restore failed" ∧
    (recordAfter (sampleJob "applying" [])
      (applyMigrationAsync stubsDatabaseFails 7 "admin" 5).2).CurrentStep = "" ∧
    (recordAfter (sampleJob "applying" [])
      (applyMigrationAsync stubsDatabaseFails 7 "admin" 5).2).ErrorMsg =
      "database restore failed: disk full" := by
  decide

/-- C18, amended: if step K of `applyMigrationAsync` fails, then after the call the job has
status `failed` and its error message is "<name of step K>: <error>"; its `current_step` is not
written and keeps the value it had before the run. -/
theorem applyMigrationAsync_failure_record (c : Collaborators) (job : MigrationJob)
    (adminUser : String) (seconds : Int) (k : Fin 8) (err : String)
    (hprev : ∀ s ∈ ApplyStep.order.take k, ApplyStep.run c s job.ID = none)
    (hk : ApplyStep.run c (ApplyStep.nth k) job.ID = some err) :
    (recordAfter job (applyMigrationAsync c job.ID adminUser seconds).2).CurrentStep =
      job.CurrentStep ∧
    (recordAfter job (applyMigrationAsync c job.ID adminUser seconds).2).Status = "failed" ∧
    (recordAfter job (applyMigrationAsync c job.ID adminUser seconds).2).ErrorMsg =
      (ApplyStep.nth k).failureName ++ ": " ++ err := by
  obtain ⟨k, hk8⟩ := k
  interval_cases k <;>
    simp [ApplyStep.order, ApplyStep.nth, ApplyStep.run, List.getD] at hprev hk <;>
    simp [applyMigrationAsync, after, handleMigrationError, hprev, hk, ApplyStep.nth,
      ApplyStep.order, ApplyStep.failureName, recordAfter]

/-- Witness of C18 (amended): step 4 fails for job 7, whose `current_step` is empty. -/
theorem applyMigrationAsync_failure_record_witness :
    (recordAfter (sampleJob "applying" [])
      (applyMigrationAsync stubsDatabaseFails 7 "admin" 5).2).ErrorMsg =
      "database restore failed: disk full" :=
  (applyMigrationAsync_failure_record stubsDatabaseFails (sampleJob "applying" []) "admin" 5
    ⟨3, by decide⟩ "disk full" (by decide) (by decide)).2.2.trans (by decide)

/-- C19, as stated, fails: job 7 has reached progress 100 in a run in which all steps succeeded;
it is applied again and step 4 fails; the progress recorded with the status `failed` is 0, lower
than the last recorded progress 100. -/
theorem applyMigrationAsync_progress_counterexample :
    (recordAfter (sampleJob "applying" [])
      (applyMigrationAsync sourceStubs 7 "admin" 5).2).Progress = 100 ∧
    (recordAfter
      (recordAfter (sampleJob "applying" []) (applyMigrationAsync sourceStubs 7 "admin" 5).2)
      (applyMigrationAsync stubsDatabaseFails 7 "admin" 5).2).Progress = 0 ∧
    (recordAfter
      (recordAfter (sampleJob "applying" []) (applyMigrationAsync sourceStubs 7 "admin" 5).2)
      (applyMigrationAsync stubsDatabaseFails 7 "admin" 5).2).Progress <
      (recordAfter (sampleJob "applying" [])
        (applyMigrationAsync sourceStubs 7 "admin" 5).2).Progress := by
  decide

/-- C19, amended: an apply run in which a step fails makes exactly one job-status write, and it
carries status `failed` and progress 0; so no progress value written within the run is followed
by a lower one, but the progress recorded with the failed status is 0 whatever the last recorded
progress of the job was, and it is lower than that whenever the job had a positive progress. -/
theorem applyMigrationAsync_failure_progress (c : Collaborators) (job : MigrationJob)
    (adminUser : String) (seconds : Int) (k : Fin 8) (err : String)
    (hprev : ∀ s ∈ ApplyStep.order.take k, ApplyStep.run c s job.ID = none)
    (hk : ApplyStep.run c (ApplyStep.nth k) job.ID = some err) :
    (∀ j status progress errorMsg,
      Call.updateJobStatus j status progress errorMsg ∈
          (applyMigrationAsync c job.ID adminUser seconds).2 →
        status = "failed" ∧ progress = 0) ∧
    ((applyMigrationAsync c job.ID adminUser seconds).2.filter Call.writesJob).length = 1 ∧
    (recordAfter job (applyMigrationAsync c job.ID adminUser seconds).2).Progress = 0 ∧
    (0 < job.Progress →
      (recordAfter job (applyMigrationAsync c job.ID adminUser seconds).2).Progress <
        job.Progress) := by
  have hzero : (recordAfter job (applyMigrationAsync c job.ID adminUser seconds).2).Progress =
      0 := by
    obtain ⟨k, hk8⟩ := k
    interval_cases k <;>
      simp [ApplyStep.order, ApplyStep.nth, ApplyStep.run, List.getD] at hprev hk <;>
      simp [applyMigrationAsync, after, handleMigrationError, hprev, hk, recordAfter]
  have hone : ((applyMigrationAsync c job.ID adminUser seconds).2.filter
      Call.writesJob).length = 1 := by
    obtain ⟨k, hk8⟩ := k
    interval_cases k <;>
      simp [ApplyStep.order, ApplyStep.nth, ApplyStep.run, List.getD] at hprev hk <;>
      simp [applyMigrationAsync, after, handleMigrationError, hprev, hk, List.filter,
        Call.writesJob]
  refine ⟨?_, hone, hzero, fun hpos => by rw [hzero]; exact hpos⟩
  intro j status progress errorMsg hmem
  obtain ⟨k, hk8⟩ := k
  interval_cases k <;>
    simp [ApplyStep.order, ApplyStep.nth, ApplyStep.run, List.getD] at hprev hk <;>
    simp [applyMigrationAsync, after, handleMigrationError, hprev, hk] at hmem <;>
    exact ⟨hmem.2.1, hmem.2.2.1⟩

/-- Witness of C19 (amended): job 7 with recorded progress 100, step 4 fails. -/
theorem applyMigrationAsync_failure_progress_witness :
    (recordAfter { sampleJob "complete" [] with Progress := 100 }
      (applyMigrationAsync stubsDatabaseFails 7 "admin" 5).2).Progress < 100 :=
  (applyMigrationAsync_failure_progress stubsDatabaseFails
    { sampleJob "complete" [] with Progress := 100 } "admin" 5 ⟨3, by decide⟩ "disk full"
    (by decide) (by decide)).2.2.2 (by decide)

/-! ### Error text in responses -/

/-- C20, evaluated: the reversal for job 7 fails; the failure response of `RollbackMigration`
carries the text of the error it got, so two different errors give two different responses. -/
theorem RollbackMigration_response_carries_error :
    (RollbackMigration (stubsRollbackError "userdel: cannot lock /etc/passwd")
        (serviceWith (sampleJob "failed" [])) adminCtx [("job_id", .float64 7)]).1 =
      errorResponse "rollback failed: userdel: cannot lock /etc/passwd" ∧
    (RollbackMigration (stubsRollbackError "mysql: access denied for user root@localhost")
        (serviceWith (sampleJob "failed" [])) adminCtx [("job_id", .float64 7)]).1 =
      errorResponse "rollback failed: mysql: access denied for user root@localhost" ∧
    (RollbackMigration (stubsRollbackError "userdel: cannot lock /etc/passwd")
        (serviceWith (sampleJob "failed" [])) adminCtx [("job_id", .float64 7)]).1 ≠
      (RollbackMigration (stubsRollbackError "mysql: access denied for user root@localhost")
        (serviceWith (sampleJob "failed" [])) adminCtx [("job_id", .float64 7)]).1 := by
  decide

/-! ### Cleaned paths -/

namespace filepath

theorem foldl_cleanStep_dotdots (k j : Nat) :
    (List.replicate k ['.', '.']).foldl (cleanStep false) (List.replicate j ['.', '.']) =
      List.replicate (j + k) ['.', '.'] := by
  induction k generalizing j with
  | zero => simp
  | succ k ih =>
    have hstep : cleanStep false (List.replicate j ['.', '.']) ['.', '.'] =
        List.replicate (j + 1) ['.', '.'] := by
      cases j with
      | zero => simp [cleanStep]
      | succ j => simp [cleanStep, List.getLast?_replicate, List.replicate_succ']
    rw [List.replicate_succ, List.foldl_cons, hstep, ih]
    congr 1
    omega

/-- Cleaning reads back what it has written: the elements kept of a path are unchanged when the
loop of `filepath.Clean` runs over them again. -/
theorem foldl_cleanStep_shape {rooted : Bool} {out : List (List Char)} (hs : Shape rooted out) :
    out.foldl (cleanStep rooted) [] = out := by
  obtain ⟨k, normals, rfl, hk, hn⟩ := hs
  cases rooted with
  | true =>
    rw [hk rfl]
    simpa using foldl_cleanStep_normal true normals [] hn
  | false =>
    rw [List.foldl_append]
    have h := foldl_cleanStep_dotdots k 0
    simp only [List.replicate_zero, Nat.zero_add] at h
    rw [h, foldl_cleanStep_normal false normals _ hn]

theorem cleanElements_written {rooted : Bool} {out : List (List Char)} (hs : Shape rooted out) :
    cleanElements (written rooted out) = out := by
  have hkept := kept_of_shape hs
  have hhead := head_written rooted out hkept
  have hfold := foldl_cleanStep_shape hs
  by_cases hnil : out = []
  · subst hnil
    cases rooted <;> simp [cleanElements, written, elements, joined, cleanStep]
  · have he := elements_joined out hnil (fun e h => (hkept e h).2.2)
    cases rooted with
    | true =>
      simp only [cleanElements, written, if_true, elements, he, List.head?_cons, decide_True,
        List.foldl_cons]
      simpa [cleanStep] using hfold
    | false =>
      have hh : ((joined out).head? = some '/') = False := by
        simpa [written, hnil] using hhead
      simp only [cleanElements, written, hnil, if_false, he, hh, decide_False,
        Bool.false_eq_true]
      exact hfold

/-- Go `filepath.Clean` returns a cleaned path as it is. -/
theorem cleanChars_idem (p : List Char) : cleanChars (cleanChars p) = cleanChars p := by
  have hs := shape_cleanElements p
  have hhead := head_written (p.head? = some '/') (cleanElements p) (kept_of_shape hs)
  rw [cleanChars_eq (cleanChars p), cleanChars_eq p, cleanElements_written hs]
  congr 1
  cases hr : decide (p.head? = some '/') with
  | true => simpa [hr] using hhead
  | false => simpa [hr] using hhead

end filepath

/-! ### The scratch directory of an analysis -/

theorem clean_idem (path : String) :
    filepath.Clean (filepath.Clean path) = filepath.Clean path := by
  simp [filepath.Clean, filepath.cleanChars_idem]

theorem join_clean (a b : String) (hb : b ≠ "") :
    filepath.Clean (filepath.Join a b) = filepath.Join a b := by
  unfold filepath.Join
  by_cases ha : a = ""
  · simp [ha, hb, clean_idem]
  · simp [ha, clean_idem]

/-- A cleaned path lies within itself. -/
theorem liesWithin_self (dir : String) (h : filepath.Clean dir = dir) :
    liesWithin dir dir = true := by
  simp [liesWithin, h]

theorem dirExistsAfter_removed (dir : String) (initially : Bool) (calls : List Call)
    (h : liesWithin dir dir = true) :
    dirExistsAfter dir initially (calls ++ [Call.osRemoveAll dir]) = false := by
  simp [dirExistsAfter, List.foldl_append, h]

/-- C21: after `analyzeBackupAsync` returns, with a plan or with an extraction error, the scratch
directory it created for the analysis no longer exists: the first call creates the directory,
the last call removes it with everything below it, and so it is absent once all calls have been
made, whether or not it existed before. -/
theorem analyzeBackupAsync_removes_scratch (c : Collaborators) (os : OS) (ms : MigrationService)
    (backupPath targetUser : String) (unixNano backupDate : Int) (initially : Bool) :
    (analyzeBackupAsync c os ms backupPath targetUser unixNano backupDate).2.head? =
        some (Call.osMkdirAll (filepath.Join ms.tmpDir ("analysis-" ++ toString unixNano))) ∧
      (analyzeBackupAsync c os ms backupPath targetUser unixNano backupDate).2.getLast? =
        some (Call.osRemoveAll (filepath.Join ms.tmpDir ("analysis-" ++ toString unixNano))) ∧
      dirExistsAfter (filepath.Join ms.tmpDir ("analysis-" ++ toString unixNano)) initially
        (analyzeBackupAsync c os ms backupPath targetUser unixNano backupDate).2 = false := by
  have hne : "analysis-" ++ toString unixNano ≠ "" := by
    intro h
    have := congrArg String.data h
    simp at this
  have hself := liesWithin_self _ (join_clean ms.tmpDir _ hne)
  have hlast : ∀ (pre : List Call) (x : Call), (pre ++ [x]).getLast? = some x := by
    intro pre x
    simp
  cases hx : (extractBackupArchive os backupPath
      (filepath.Join ms.tmpDir ("analysis-" ++ toString unixNano))).1 with
  | some err =>
    simp only [analyzeBackupAsync, hx]
    exact ⟨by simp, hlast _ _, dirExistsAfter_removed _ initially _ hself⟩
  | none =>
    simp only [analyzeBackupAsync, hx]
    exact ⟨by simp, hlast _ _, dirExistsAfter_removed _ initially _ hself⟩

/-! ### Entries whose name begins with two dots -/

/-- C22, evaluated: the archive holds the directory `..snapshot` and the regular file
`..data/config.yaml`; both have their canonical path inside the scratch directory, and
`extractBackupArchive` creates neither: the guard skips every cleaned name that begins with the
two characters `..`, not only the names that climb out. The entries before and after them are
created. -/
theorem extractBackupArchive_drops_dotted_names :
    liesWithin sampleExtractDir
        (filepath.Join sampleExtractDir (filepath.Clean "..snapshot")) = true ∧
    liesWithin sampleExtractDir
        (filepath.Join sampleExtractDir (filepath.Clean "..data/config.yaml")) = true ∧
    extractEntry sampleExtractDir { Name := "..snapshot", Typeflag := tar.TypeDir } = [] ∧
    extractEntry sampleExtractDir { Name := "..data/config.yaml", Typeflag := tar.TypeReg } = [] ∧
    extractBackupArchive (osWith sampleBackupPath { IsDir := false, Size := 4096 } dottedArchive)
        sampleBackupPath sampleExtractDir =
      (none,
       [Call.osMkdirAll "/tmp/npanel-migrations/analysis-1/homedir",
        Call.osMkdirAll "/tmp/npanel-migrations/analysis-1/homedir",
        Call.osCreate "/tmp/npanel-migrations/analysis-1/homedir/index.html"]) := by
  decide

/-! ### Approval token, preview, queue -/

/-- C23, evaluated: `verifyMigrationApprovalToken` accepts every token for every job, so one token
is accepted for two distinct jobs; this is the function the apply request is checked with, and the
apply requests for jobs 7 and 8 with the same token are both queued. -/
theorem verifyMigrationApprovalToken_accepts_all :
    (∀ (token : String) (jobA jobB : Int),
      verifyMigrationApprovalToken token jobA = true ∧
        verifyMigrationApprovalToken token jobB = true) ∧
    sourceStubs.verifyMigrationApprovalToken = verifyMigrationApprovalToken ∧
    (ApplyMigration sourceStubs (serviceWith (sampleJob "planning" [])) adminCtx
        (applyRequest 7 "token-of-job-7")).1.lookup "success" = some (.bool true) ∧
    (ApplyMigration sourceStubs (serviceWith (sampleJob "planning" [])) adminCtx
        (applyRequest 8 "token-of-job-7")).1.lookup "success" = some (.bool true) := by
  refine ⟨fun _ _ _ => ⟨rfl, rfl⟩, rfl, by decide, by decide⟩

/-- C24, evaluated: the `would_create` counts of a preview are the same constants for every
service and every job (5 domains, 25 mailboxes, 3 databases, 1 DNS zone, 1 certificate). Job 7
has a plan with one domain and nothing else, and a job with an empty plan gets the same preview;
neither preview equals the counts of the plan. -/
theorem PreviewMigration_constant_counts :
    (∀ (ms : MigrationService) (ctx : ActionContext) (jobID : Int),
      wouldCreate (PreviewMigration ms ctx (previewRequest jobID)).1 =
        some (.obj [("users", .int 1), ("domains", .int 5), ("emails", .int 25),
                    ("databases", .int 3), ("dns_zones", .int 1), ("ssl_certs", .int 1)])) ∧
    wouldCreate (PreviewMigration (serviceWith (sampleJob "planning" [])) adminCtx
        (previewRequest 7)).1 ≠ some (.obj (planCounts (samplePlan []))) ∧
    planCounts (samplePlan []) ≠ planCounts emptyPlan ∧
    PreviewMigration (serviceWith (sampleJob "planning" [])) adminCtx (previewRequest 7) =
      PreviewMigration (serviceWith { sampleJob "planning" [] with Plan := emptyPlan }) adminCtx
        (previewRequest 7) := by
  refine ⟨fun _ _ _ => rfl, by decide, by decide, rfl⟩

/-- C25, evaluated: five apply requests, for jobs 1 to 5, reach a service whose limit is 3. Each
is answered with status `applying`, and each answer is the one a service with any other limit
gives: `maxConcurrentJobs` is never read, no request waits. -/
theorem ApplyMigration_unbounded :
    (serviceWith (sampleJob "planning" [])).maxConcurrentJobs = 3 ∧
    [1, 2, 3, 4, 5].map
        (fun jobID =>
          (ApplyMigration sourceStubs (serviceWith (sampleJob "planning" [])) adminCtx
            (applyRequest jobID "token")).1.lookup "status") =
      [some (.str "applying"), some (.str "applying"), some (.str "applying"),
       some (.str "applying"), some (.str "applying")] ∧
    (∀ (ms : MigrationService) (limit : Int) (ctx : ActionContext) (params : GoMap),
      ApplyMigration sourceStubs { ms with maxConcurrentJobs := limit } ctx params =
        ApplyMigration sourceStubs ms ctx params) := by
  refine ⟨by decide, by decide, fun _ _ _ _ => rfl⟩

/-! ### Password length -/

/-- C26, evaluated: a password of 128 characters (128 bytes) with an uppercase letter, a
lowercase letter, a digit and a space is accepted, whatever `unicode.IsPunct` and
`unicode.IsSymbol` hold: the upper check is `len(password) > 128`. -/
theorem ValidatePassword_accepts_128 (isPunct isSymbol : Char → Bool) :
    password128.length = 128 ∧ password128.utf8ByteSize = 128 ∧
      ValidatePassword isPunct isSymbol password128 = none := by
  have hlen : password128.utf8ByteSize = 128 := by
    set_option maxRecDepth 100000 in decide
  refine ⟨by simp [password128, String.length], hlen, ?_⟩
  unfold ValidatePassword
  rw [hlen]
  simp [password128, passwordStep]

/-! ### Account lockout -/

/-- C28, evaluated: five failed attempts within four seconds lock the account of the server
tracker (5 attempts, 15 minutes). One hour after the first attempt `GetRemainingTime` is 0 and
`IsLocked` is still true: `IsLocked` counts the stored attempts and does not look at the time. -/
theorem IsLocked_after_lockout_elapsed :
    (serverLockout.recordAll "alice@example.com" fiveAttempts).GetRemainingTime
        "alice@example.com" oneHour = 0 ∧
    (serverLockout.recordAll "alice@example.com" fiveAttempts).IsLocked
        "alice@example.com" = true := by
  decide

/-! ### Selective restore without components -/

/-- C30, evaluated: a request with `backup_path` and the valid mode `merge` that lacks the
`components` entry, or carries a string there, makes `SelectiveRestore` panic at the type
assertion instead of returning a failure response. -/
theorem SelectiveRestore_panics_without_components (ms : MigrationService) :
    SelectiveRestore ms adminCtx
        [("backup_path", .str sampleBackupPath), ("mode", .str "merge")] =
      .error
        "interface conversion: interface \x7b\x7d is nil, not map[string]interface \x7b\x7d" ∧
    SelectiveRestore ms adminCtx
        [("backup_path", .str sampleBackupPath), ("mode", .str "merge"),
         ("components", .str "databases")] =
      .error
        "interface conversion: interface \x7b\x7d is string, not map[string]interface \x7b\x7d" :=
  ⟨rfl, rfl⟩

/-! ### Roles -/

theorem roleRank_cases (role : String) (n : Nat) (h : roleRank role = some n) :
    (role = "user" ∧ n = 0) ∨ (role = "reseller" ∧ n = 1) ∨ (role = "admin" ∧ n = 2) ∨
      (role = "root" ∧ n = 3) := by
  unfold roleRank at h
  split at h
  · simp_all
  · split at h
    · simp_all
    · split at h
      · simp_all
      · split at h
        · simp_all
        · simp at h

/-- A role is granted a permission exactly when the permission is on the list of the role. -/
theorem HasPermission_iff (role permission : String) :
    HasPermission role permission = true ↔
      ∃ permissions, RolePermissions role = some permissions ∧ permission ∈ permissions := by
  unfold HasPermission
  cases RolePermissions role with
  | none => simp
  | some ps => simp

/-- The permission lists grow along user, reseller, admin, root. -/
theorem RolePermissions_grow :
    (∀ ps qs, RolePermissions "user" = some ps → RolePermissions "reseller" = some qs →
      ∀ p ∈ ps, p ∈ qs) ∧
    (∀ ps qs, RolePermissions "reseller" = some ps → RolePermissions "admin" = some qs →
      ∀ p ∈ ps, p ∈ qs) ∧
    (∀ ps qs, RolePermissions "admin" = some ps → RolePermissions "root" = some qs →
      ∀ p ∈ ps, p ∈ qs) := by
  refine ⟨?_, ?_, ?_⟩ <;>
  · intro ps qs hps hqs
    simp only [RolePermissions, String.reduceEq, if_true, if_false, Option.some.injEq] at hps hqs
    subst hps hqs
    decide

/-- C29: role permissions are cumulative along user, reseller, admin, root: a permission that
`HasPermission` grants to a role is granted to every role at the same or a higher place in that
order, and a role name outside these four is granted no permission at all. -/
theorem HasPermission_cumulative (permission : String) :
    (∀ (lower higher : String) (m n : Nat), roleRank lower = some m → roleRank higher = some n →
      m ≤ n → HasPermission lower permission = true → HasPermission higher permission = true) ∧
    (∀ role : String, roleRank role = none → HasPermission role permission = false) := by
  obtain ⟨hur, hra, har⟩ := RolePermissions_grow
  have step : ∀ a b : String,
      (∀ ps qs, RolePermissions a = some ps → RolePermissions b = some qs → ∀ p ∈ ps, p ∈ qs) →
      (∃ qs, RolePermissions b = some qs) →
      HasPermission a permission = true → HasPermission b permission = true := by
    intro a b hab hb h
    obtain ⟨ps, hps, hmem⟩ := (HasPermission_iff a permission).1 h
    obtain ⟨qs, hqs⟩ := hb
    exact (HasPermission_iff b permission).2 ⟨qs, hqs, hab ps qs hps hqs permission hmem⟩
  have h12 := step "user" "reseller" hur ⟨_, rfl⟩
  have h23 := step "reseller" "admin" hra ⟨_, rfl⟩
  have h34 := step "admin" "root" har ⟨_, rfl⟩
  constructor
  · intro lower higher m n hl hh hmn hp
    rcases roleRank_cases lower m hl with ⟨rfl, rfl⟩ | ⟨rfl, rfl⟩ | ⟨rfl, rfl⟩ | ⟨rfl, rfl⟩ <;>
    rcases roleRank_cases higher n hh with ⟨rfl, rfl⟩ | ⟨rfl, rfl⟩ | ⟨rfl, rfl⟩ | ⟨rfl, rfl⟩ <;>
    first
    | exact absurd hmn (by decide)
    | exact hp
    | exact h12 hp
    | exact h23 hp
    | exact h34 hp
    | exact h23 (h12 hp)
    | exact h34 (h23 hp)
    | exact h34 (h23 (h12 hp))
  · intro role hr
    unfold roleRank at hr
    have h1 : role ≠ "user" := fun h => by simp [h] at hr
    have h2 : role ≠ "reseller" := fun h => by simp [h] at hr
    have h3 : role ≠ "admin" := fun h => by simp [h] at hr
    have h4 : role ≠ "root" := fun h => by simp [h] at hr
    simp [HasPermission, RolePermissions, h1, h2, h3, h4]

/-- C29 at concrete roles: the permission `manage_own_email` of a user is granted to root, and
the role name `guest` is granted nothing. -/
theorem HasPermission_cumulative_witness :
    HasPermission "root" "manage_own_email" = true ∧
      HasPermission "guest" "manage_own_email" = false :=
  ⟨(HasPermission_cumulative "manage_own_email").1 "user" "root" 0 3 (by decide) (by decide)
      (by decide) (by decide),
   (HasPermission_cumulative "manage_own_email").2 "guest" (by decide)⟩

/-! ### The cgroup directory of an account -/

namespace filepath

theorem joined_append_name (out : List (List Char)) (name : List Char) (h : out ≠ []) :
    joined (out ++ [name]) = joined out ++ '/' :: name := by
  induction out with
  | nil => exact absurd rfl h
  | cons e es ih =>
    cases es with
    | nil => simp [joined]
    | cons x xs =>
      have hrest : joined ((x :: xs) ++ [name]) = joined (x :: xs) ++ '/' :: name :=
        ih (by simp)
      show e ++ '/' :: joined ((x :: xs) ++ [name]) = (e ++ '/' :: joined (x :: xs)) ++ '/' :: name
      rw [hrest]
      simp

theorem written_append_name (rooted : Bool) (out : List (List Char)) (name : List Char)
    (h : out ≠ []) : written rooted (out ++ [name]) = written rooted out ++ '/' :: name := by
  cases rooted <;> simp [written, h, joined_append_name out name h]

/-- Cleaning a path that ends in a separator and a normal name: the name is written after the
elements kept of what precedes it. -/
theorem cleanChars_append_name (p name : List Char) (hp : p ≠ []) (hn : Normal name) :
    cleanChars (p ++ '/' :: name) =
      written (p.head? = some '/') (cleanElements p ++ [name]) := by
  have hhead : (p ++ '/' :: name).head? = p.head? := by
    cases p with
    | nil => exact absurd rfl hp
    | cons x xs => simp
  rw [cleanChars_eq, hhead, cleanElements_join p name hp, elements_of_no_sep name hn.2.2.2]
  simp [cleanStep_normal _ _ name hn]

/-- The path up to and including the last separator, where a name free of separators follows
it. -/
theorem dir_chars_of_last_name (pre name : List Char) (hsep : '/' ∉ name) :
    (((pre ++ '/' :: name).reverse.dropWhile (fun c => c ≠ '/')).reverse) = pre ++ ['/'] := by
  have h : (pre ++ '/' :: name).reverse = name.reverse ++ '/' :: pre.reverse := by simp
  rw [h, List.dropWhile_append]
  have hall : name.reverse.dropWhile (fun c => decide (c ≠ '/')) = [] := by
    rw [List.dropWhile_eq_nil_iff]
    intro c hc
    have : c ≠ '/' := fun hh => hsep (by simpa [hh] using hc)
    simpa using this
  simp [hall, hsep]

/-- Cleaning drops a separator at the end of a cleaned path. -/
theorem cleanChars_trailing_sep (p : List Char) :
    cleanChars (cleanChars p ++ ['/']) = cleanChars p := by
  have hne : cleanChars p ≠ [] := by
    rw [cleanChars_eq]
    unfold written
    split
    · simp
    · split
      · simp
      · rename_i hk
        intro hj
        have hs := kept_of_shape (shape_cleanElements p)
        cases hD : cleanElements p with
        | nil => exact hk hD
        | cons e es =>
          rw [hD] at hj
          have he := (hs e (by simp [hD])).1
          cases es with
          | nil => exact he (by simpa [joined] using hj)
          | cons x xs => simp [joined] at hj
  have hhead : (cleanChars p ++ ['/']).head? = (cleanChars p).head? := by
    cases h : cleanChars p with
    | nil => exact absurd h hne
    | cons x xs => simp
  have h1 := cleanElements_join (cleanChars p) [] hne
  conv_lhs => rw [cleanChars_eq]
  rw [hhead, h1]
  have h2 : (elements []).foldl (cleanStep ((cleanChars p).head? = some '/'))
      (cleanElements (cleanChars p)) = cleanElements (cleanChars p) := by
    simp [elements, cleanStep]
  rw [h2, ← cleanChars_eq, cleanChars_idem]

end filepath

/-- No character that `sanitizeFilename` writes is a separator. -/
theorem sanitizeFilename_no_sep (s : String) : '/' ∉ (sanitizeFilename s).data := by
  simp only [sanitizeFilename, List.mem_map, not_exists, not_and]
  intro c _
  by_cases h : filenameChar c = true
  · rw [if_pos h]
    intro hc
    rw [hc] at h
    exact absurd h (by decide)
  · rw [if_neg h]
    decide

/-- The name of the cgroup directory of an account is a single normal path element. -/
theorem accountSliceName_normal (accountID : String) :
    filepath.Normal (accountSliceName accountID).data := by
  have hsep := sanitizeFilename_no_sep
    (strings.ReplaceAll (strings.ReplaceAll accountID "/" "_") ".." "__")
  have hdata : (accountSliceName accountID).data =
      'u' :: 's' :: 'e' :: 'r' :: '-' ::
        ((sanitizeFilename
          (strings.ReplaceAll (strings.ReplaceAll accountID "/" "_") ".." "__")).data ++
          ['.', 's', 'l', 'i', 'c', 'e']) := by
    simp [accountSliceName, String.data_append]
  rw [hdata]
  refine ⟨by simp, by simp, by simp, ?_⟩
  simp only [List.mem_cons, List.mem_append, not_or]
  exact ⟨by decide, by decide, by decide, by decide, by decide, hsep, by decide⟩

/-- The characters that `filepath.Join` cleans for a base path followed by `user.slice`: the base
path is left out when it is empty. -/
theorem join_user_slice (basePath name : String) :
    ∃ p : List Char, p ≠ [] ∧ filepath.cleanElements p ≠ [] ∧
      filepath.join [basePath, "user.slice"] = ⟨filepath.cleanChars p⟩ ∧
      filepath.join [basePath, "user.slice", name] =
        ⟨filepath.cleanChars (p ++ '/' :: name.data)⟩ := by
  have hus : filepath.Normal "user.slice".data := by
    refine ⟨by decide, by decide, by decide, by decide⟩
  by_cases hb : basePath = ""
  · subst hb
    refine ⟨"user.slice".data, by decide, by decide, ?_, ?_⟩
    · simp [filepath.join, filepath.Clean, strings.Join, String.intercalate,
        String.intercalate.go]
    · simp [filepath.join, filepath.Clean, strings.Join, String.intercalate,
        String.intercalate.go, String.data_append]
  · have hne : basePath.data ≠ [] := fun h => hb (String.ext h)
    refine ⟨basePath.data ++ '/' :: "user.slice".data, by simp, ?_, ?_, ?_⟩
    · rw [filepath.cleanElements_join _ _ hne,
        filepath.elements_of_no_sep _ hus.2.2.2]
      simp [filepath.cleanStep_normal _ _ _ hus]
    · simp [filepath.join, hb, filepath.Clean, strings.Join, String.intercalate,
        String.intercalate.go, String.data_append]
    · simp [filepath.join, hb, filepath.Clean, strings.Join, String.intercalate,
        String.intercalate.go, String.data_append]

/-- C27: for every account ID, `getAccountCgroupPath` returns a direct child of
`<basePath>/user.slice`: the path is that directory (as `filepath.Join` writes it), one separator
and the name `user-<sanitized ID>.slice`, which is a single path element other than `.` and `..`
and free of separators. So `filepath.Dir` of the path is the directory, `filepath.Base` is the
name, and the path lies within the directory. -/
theorem getAccountCgroupPath_direct_child (cm : CgroupManager) (accountID : String) :
    getAccountCgroupPath cm accountID =
        filepath.join [cm.basePath, "user.slice"] ++ "/" ++ accountSliceName accountID ∧
      filepath.Normal (accountSliceName accountID).data ∧
      filepath.Dir (getAccountCgroupPath cm accountID) =
        filepath.join [cm.basePath, "user.slice"] ∧
      filepath.Base (getAccountCgroupPath cm accountID) = accountSliceName accountID ∧
      liesWithin (filepath.join [cm.basePath, "user.slice"])
        (getAccountCgroupPath cm accountID) = true := by
  have hn := accountSliceName_normal accountID
  obtain ⟨p, hp, hD, hparent, hresult⟩ := join_user_slice cm.basePath (accountSliceName accountID)
  have hshape := filepath.shape_cleanElements p
  have hdata : filepath.cleanChars (p ++ '/' :: (accountSliceName accountID).data) =
      filepath.cleanChars p ++ '/' :: (accountSliceName accountID).data := by
    rw [filepath.cleanChars_append_name p _ hp hn, filepath.written_append_name _ _ _ hD,
      ← filepath.cleanChars_eq]
  have hpath : getAccountCgroupPath cm accountID =
      ⟨filepath.cleanChars p ++ '/' :: (accountSliceName accountID).data⟩ := by
    rw [getAccountCgroupPath, hresult, hdata]
  refine ⟨?_, hn, ?_, ?_, ?_⟩
  · rw [hpath, hparent]
    exact String.ext (by simp [String.data_append])
  · rw [hpath, hparent]
    unfold filepath.Dir
    simp only [filepath.Clean]
    rw [filepath.dir_chars_of_last_name _ _ hn.2.2.2, filepath.cleanChars_trailing_sep]
  · rw [hpath]
    have hb := base_of_last_name (filepath.cleanChars p ++ ['/'])
      (accountSliceName accountID).data hn.1 hn.2.2.2 (Or.inr ⟨_, rfl⟩)
    simpa using hb
  · have hkept := filepath.kept_of_shape hshape
    have hall : ∀ e ∈ filepath.cleanElements p ++ [(accountSliceName accountID).data],
        filepath.Kept e := by
      intro e he
      rcases List.mem_append.1 he with h | h
      · exact hkept e h
      · rw [List.mem_singleton.1 h]
        exact filepath.kept_of_normal hn
    have hchild : (getAccountCgroupPath cm accountID).data =
        filepath.written (p.head? = some '/')
          (filepath.cleanElements p ++ [(accountSliceName accountID).data]) := by
      rw [getAccountCgroupPath, hresult, filepath.cleanChars_append_name p _ hp hn]
    have h1 : pathNames (getAccountCgroupPath cm accountID) =
        filepath.cleanElements p ++ [(accountSliceName accountID).data] := by
      rw [pathNames, hchild]
      exact filepath.names_written _ _ hall
    have hclean : filepath.Clean (filepath.join [cm.basePath, "user.slice"]) =
        filepath.join [cm.basePath, "user.slice"] := by
      rw [hparent]
      simp [filepath.Clean, filepath.cleanChars_idem]
    have h2 : pathNames (filepath.join [cm.basePath, "user.slice"]) =
        filepath.cleanElements p := by
      rw [pathNames, hparent]
      exact filepath.names_written _ _ hkept
    have h3 : filepath.IsAbs (getAccountCgroupPath cm accountID) =
        filepath.IsAbs (filepath.join [cm.basePath, "user.slice"]) := by
      rw [Bool.eq_iff_iff, filepath.isAbs_iff_head, filepath.isAbs_iff_head, hchild, hparent]
      show _ ↔ (filepath.cleanChars p).head? = some '/'
      rw [filepath.cleanChars_eq, filepath.head_written _ _ hall,
        filepath.head_written _ _ hkept]
    have h4 : (accountSliceName accountID).data ≠ ['.', '.'] := hn.2.2.1
    simp [liesWithin, hclean, h1, h2, h3, Ne.symm h4]

end Npanel
